import Mathlib

/-!
Verification of the seeed remote-orchestration tool.

This file contains a shallow embedding of the seeed source tree
(`src/parser.rs`, `src/script.rs`, `src/built_in_functions.rs`,
`src/error.rs`, `src/sshclient.rs`, `src/main.rs`) and theorems about it.

Conventions of the embedding:
- Rust byte slices and `String`s are represented as `List Nat` (UTF-8 bytes).
- The pom parser combinators operate on `(input, start)` pairs exactly as in
  the Rust library: a parser is `List Nat → Nat → Except PomErr (α × Nat)`.
- Unbounded loops (pom `repeat`, the recursive grammar, the output poll loop)
  are given explicit fuel; the fuel is always instantiated large enough that
  the fueled function agrees with the Rust loop on every input on which the
  Rust loop terminates (each loop body consumes at least one byte / event).
- Error messages that the claims never inspect (pom diagnostic strings) are
  not tracked; error positions are.
-/

/-- Bytes of an (ASCII) Rust string literal. -/
def strBytes (s : String) : List Nat := s.data.map Char.toNat

/-- Decimal digits of a natural number, as ASCII bytes (Rust `Display` for
unsigned integers). -/
def natDisplay (n : Nat) : List Nat := (Nat.toDigits 10 n).map Char.toNat

/-- Rust `Display` for `i64`, as ASCII bytes. -/
def intDisplay (i : Int) : List Nat :=
  if i < 0 then 45 :: natDisplay i.natAbs else natDisplay i.natAbs

/-- UTF-8 validity, one byte at a time: the first argument is the number of
continuation bytes still expected, the next two the admissible range of the
upcoming continuation byte (the first continuation of a multi-byte sequence
has a restricted range). -/
def utf8ValidFrom : Nat → Nat → Nat → List Nat → Bool
  | 0, _, _, [] => true
  | 0, _, _, b :: rest =>
    if b < 0x80 then utf8ValidFrom 0 0 0 rest
    else if 0xC2 ≤ b && b ≤ 0xDF then utf8ValidFrom 1 0x80 0xBF rest
    else if b = 0xE0 then utf8ValidFrom 2 0xA0 0xBF rest
    else if 0xE1 ≤ b && b ≤ 0xEC then utf8ValidFrom 2 0x80 0xBF rest
    else if b = 0xED then utf8ValidFrom 2 0x80 0x9F rest
    else if 0xEE ≤ b && b ≤ 0xEF then utf8ValidFrom 2 0x80 0xBF rest
    else if b = 0xF0 then utf8ValidFrom 3 0x90 0xBF rest
    else if 0xF1 ≤ b && b ≤ 0xF3 then utf8ValidFrom 3 0x80 0xBF rest
    else if b = 0xF4 then utf8ValidFrom 3 0x80 0x8F rest
    else false
  | _ + 1, _, _, [] => false
  | k + 1, lo, hi, b :: rest =>
    if lo ≤ b && b ≤ hi then utf8ValidFrom k 0x80 0xBF rest else false

/-- UTF-8 validity of a byte list (mirrors the check done by Rust
`std::str::from_utf8` / `String::from_utf8`). -/
def utf8Valid (l : List Nat) : Bool := utf8ValidFrom 0 0 0 l

/-! ## The pom combinator library (the subset used by `src/parser.rs`) -/

/-- pom error values. Diagnostic message strings are not modelled; the
position they carry is. `incomplete` is `pom::Error::Incomplete`. -/
inductive PomErr where
  | incomplete : PomErr
  | mismatch (pos : Nat) : PomErr
  | conversionErr (pos : Nat) : PomErr
  | custom (pos : Nat) : PomErr
deriving DecidableEq

/-- A pom parser over bytes: given the whole input and a start offset it
either fails or returns a value together with the new offset. -/
def BParser (α : Type) : Type := List Nat → Nat → Except PomErr (α × Nat)

/-- pom `sym(b)`: match one exact byte, return it. -/
def psym (b : Nat) : BParser Nat := fun input start =>
  match (input.drop start).head? with
  | some c => if c = b then .ok (b, start + 1) else .error (.mismatch start)
  | none => .error (.mismatch start)

/-- pom `one_of(set)`: match any byte in `set`, return it. -/
def poneOf (set : List Nat) : BParser Nat := fun input start =>
  match (input.drop start).head? with
  | some c => if c ∈ set then .ok (c, start + 1) else .error (.mismatch start)
  | none => .error (.mismatch start)

/-- pom `none_of(set)`: match any byte not in `set`, return it. -/
def pnoneOf (set : List Nat) : BParser Nat := fun input start =>
  match (input.drop start).head? with
  | some c => if c ∈ set then .error (.mismatch start) else .ok (c, start + 1)
  | none => .error (.mismatch start)

/-- pom `is_a(pred)`: match any byte satisfying `pred`, return it. -/
def pisA (pred : Nat → Bool) : BParser Nat := fun input start =>
  match (input.drop start).head? with
  | some c => if pred c then .ok (c, start + 1) else .error (.mismatch start)
  | none => .error (.mismatch start)

/-- pom `seq(tag)`: match the exact byte sequence `tag`, return it. -/
def pseq (tag : List Nat) : BParser (List Nat) := fun input start =>
  if tag.isPrefixOf (input.drop start) then .ok (tag, start + tag.length)
  else .error (.mismatch start)

/-- pom `end()`: succeed exactly when no byte remains at `start`. -/
def pend : BParser Unit := fun input start =>
  match (input.drop start).head? with
  | some _ => .error (.mismatch start)
  | none => .ok ((), start)

/-- pom `p.map(f)`. -/
def pmap (p : BParser α) (f : α → β) : BParser β := fun input start =>
  match p input start with
  | .ok (a, pos) => .ok (f a, pos)
  | .error e => .error e

/-- pom `p.convert(f)`: a failing conversion reports `Error::Conversion` at
the parser's start position. -/
def pconvert (p : BParser α) (f : α → Option β) : BParser β := fun input start =>
  match p input start with
  | .ok (a, pos) =>
    match f a with
    | some b => .ok (b, pos)
    | none => .error (.conversionErr start)
  | .error e => .error e

/-- pom `p.discard()`. -/
def pdiscard (p : BParser α) : BParser Unit := pmap p (fun _ => ())

/-- pom `p.collect()`: return the consumed input slice. -/
def pcollect (p : BParser α) : BParser (List Nat) := fun input start =>
  match p input start with
  | .ok (_, pos) => .ok ((input.drop start).take (pos - start), pos)
  | .error e => .error e

/-- pom `p.opt()`. -/
def popt (p : BParser α) : BParser (Option α) := fun input start =>
  match p input start with
  | .ok (a, pos) => .ok (some a, pos)
  | .error _ => .ok (none, start)

/-- pom `a | b`: ordered choice with full backtracking. -/
def palt (p q : BParser α) : BParser α := fun input start =>
  match p input start with
  | .ok r => .ok r
  | .error _ => q input start

/-- pom `a + b`: sequence, keep the pair. -/
def ppair (p : BParser α) (q : BParser β) : BParser (α × β) := fun input start =>
  match p input start with
  | .ok (a, pos) =>
    match q input pos with
    | .ok (b, pos2) => .ok ((a, b), pos2)
    | .error e => .error e
  | .error e => .error e

/-- pom `a - b`: sequence, keep the left value. -/
def pleft (p : BParser α) (q : BParser β) : BParser α :=
  pmap (ppair p q) Prod.fst

/-- pom `a * b`: sequence, keep the right value. -/
def pright (p : BParser α) (q : BParser β) : BParser β :=
  pmap (ppair p q) Prod.snd

/-- pom `p >> f`: monadic bind. -/
def pbind (p : BParser α) (f : α → BParser β) : BParser β := fun input start =>
  match p input start with
  | .ok (a, pos) => f a input pos
  | .error e => .error e

/-- Greedy iteration used by pom `repeat`: apply `p` repeatedly (bounded by
`fuel` and by `max`) collecting results; stops at the first failure. The pom
loop has no fuel, but every parser it is applied to in this grammar consumes
at least one byte per success, so with `fuel > input.length` the two agree. -/
def prepeatIter (p : BParser α) (max : Option Nat) :
    Nat → List Nat → Nat → List α × Nat
  | 0, _, start => ([], start)
  | fuel + 1, input, start =>
    match max with
    | some 0 => ([], start)
    | _ =>
      match p input start with
      | .error _ => ([], start)
      | .ok (a, pos) =>
        let rest := prepeatIter p (max.map (· - 1)) fuel input pos
        (a :: rest.1, rest.2)

/-- pom `p.repeat(range)` with a minimum (and optional maximum) count. -/
def prepeat (min : Nat) (max : Option Nat) (p : BParser α) : BParser (List α) :=
  fun input start =>
    let r := prepeatIter p max (input.length + 1) input start
    if r.1.length < min then .error (.mismatch start) else .ok r

/-- pom `list(item, sep)`: items separated by `sep`; possibly empty; never
fails; backtracks over a trailing separator. Fueled like `prepeat`. -/
def plistIter (item : BParser α) (sep : BParser β) :
    Nat → List Nat → Nat → List α × Nat
  | 0, _, start => ([], start)
  | fuel + 1, input, start =>
    match sep input start with
    | .error _ => ([], start)
    | .ok (_, posSep) =>
      match item input posSep with
      | .error _ => ([], start)
      | .ok (a, pos) =>
        let rest := plistIter item sep fuel input pos
        (a :: rest.1, rest.2)

/-- pom `list(item, sep)`. -/
def plist (item : BParser α) (sep : BParser β) : BParser (List α) :=
  fun input start =>
    match item input start with
    | .error _ => .ok ([], start)
    | .ok (a, pos) =>
      let rest := plistIter item sep (input.length + 1) input pos
      .ok (a :: rest.1, rest.2)

/-- The subsequence search of `parser.rs::until`
(`haystack.windows(needle.len()).position(|w| w == needle)`): index of the
first occurrence of `needle` in `hay`. (Rust panics on an empty needle —
`windows(0)` — which never occurs in this grammar.) -/
def findSubseq (needle : List Nat) : List Nat → Option Nat
  | [] => if needle.isPrefixOf [] then some 0 else none
  | b :: t =>
    if needle.isPrefixOf (b :: t) then some 0
    else (findSubseq needle t).map (· + 1)

/-- The custom combinator `parser.rs::until(needle)`: searches for the first
occurrence of `needle` from `start`, returns the text before it (checked to
be valid UTF-8 by `from_utf8`), and — exactly as the source does — resumes at
`start + position + 1 + needle.len()`, one byte past the end of the needle. -/
def puntil (needle : List Nat) : BParser (List Nat) := fun input start =>
  match findSubseq needle (input.drop start) with
  | none => .error .incomplete
  | some position =>
    let s := (input.drop start).take position
    if utf8Valid s then .ok (s, start + position + 1 + needle.length)
    else .error (.mismatch start)

/-! ## The AST of `src/parser.rs` -/

/-- `parser.rs::Literal`. Payload strings are UTF-8 byte lists. -/
inductive Literal where
  | HereDoc (contents : List Nat) : Literal
  | String (s : List Nat) : Literal
  | Integer (i : Int) : Literal
  | Bool (b : Bool) : Literal
  | Array (elems : List Literal) : Literal
  | Void : Literal

/-- `parser.rs::Expression`. -/
inductive Expression where
  | Literal (l : Literal) : Expression
  | Variable (name : List Nat) : Expression
  | FnCall (name : List Nat) (args : List Expression) : Expression
  | Array (elems : List Expression) : Expression
  | HereDoc (contents : List Nat) : Expression

/-- `parser.rs::Statement`. -/
inductive Statement where
  | Comment : Statement
  | EmptyLine : Statement
  | Assign (name : List Nat) (e : Expression) : Statement
  | RemoteSingle (line : List Nat) : Statement
  | Remote (lines : List (List Nat)) : Statement
  | FnCall (name : List Nat) (args : List Expression) : Statement
  | ForLoop (varname : List Nat) (e : Expression) (body : List Statement) : Statement

/-- `parser.rs::ScriptAST`. -/
structure ScriptAST where
  statements : List Statement

/-- `Display for Literal` (`parser.rs` lines 53-76): heredocs and strings
print their contents, integers and booleans their usual form, arrays the
opaque marker, `Void` the word `void`. -/
def literalDisplay : Literal → List Nat
  | .HereDoc contents => contents
  | .String s => s
  | .Integer i => intDisplay i
  | .Bool b => if b then strBytes "true" else strBytes "false"
  | .Array _ => strBytes "<<array>>"
  | .Void => strBytes "void"

/-! ## The grammar of `src/parser.rs` -/

/-- pom `char_class::alpha`. -/
def isAlphaByte (b : Nat) : Bool :=
  (65 ≤ b && b ≤ 90) || (97 ≤ b && b ≤ 122)

/-- pom `char_class::alphanum`. -/
def isAlphanumByte (b : Nat) : Bool :=
  isAlphaByte b || (48 ≤ b && b ≤ 57)

/-- pom `char_class::hex_digit`. -/
def isHexDigitByte (b : Nat) : Bool :=
  (48 ≤ b && b ≤ 57) || (65 ≤ b && b ≤ 70) || (97 ≤ b && b ≤ 102)

/-- `parser.rs::spaces`: zero or more spaces or tabs. -/
def spacesP : BParser Unit := pdiscard (prepeat 0 none (poneOf [32, 9]))

/-- Digits-to-`i64` conversion used by `parser.rs::integer` (`str::parse`).
The source script is finite text, so the i64-overflow failure of `parse` is
modelled as a plain conversion to `Int` guarded by the i64 range. -/
def parseI64 (digits : List Nat) : Option Int :=
  let n : Nat := digits.foldl (fun acc d => acc * 10 + (d - 48)) 0
  if (n : Int) ≤ 9223372036854775807 then some (n : Int) else none

/-- `parser.rs::integer`: one or more decimal digits (leading zeros allowed). -/
def integerP : BParser Int :=
  pconvert (pcollect (prepeat 1 none (poneOf (strBytes "0123456789")))) parseI64

/-- One character of `parser.rs::string`'s `char_string` branch: a byte that
is neither backslash nor quote, or an escape sequence. -/
def specialCharP : BParser Nat :=
  palt (psym 92) (palt (psym 47) (palt (psym 34)
    (palt (pmap (psym 98) (fun _ => 8)) (palt (pmap (psym 102) (fun _ => 12))
      (palt (pmap (psym 110) (fun _ => 10)) (palt (pmap (psym 114) (fun _ => 13))
        (pmap (psym 116) (fun _ => 9))))))))

/-- `parser.rs::string`'s `escape_sequence`. -/
def escapeSequenceP : BParser Nat := pright (psym 92) specialCharP

/-- Bytes whose `String::from_utf8` conversion succeeds, as used by
`char_string`. -/
def charStringP : BParser (List Nat) :=
  pconvert (prepeat 1 none (palt (pnoneOf [92, 34]) escapeSequenceP))
    (fun bytes => if utf8Valid bytes then some bytes else none)

/-- Hex digits to a number. -/
def hexVal (digits : List Nat) : Nat :=
  digits.foldl (fun acc d =>
    acc * 16 + (if d ≤ 57 then d - 48 else if d ≤ 70 then d - 55 else d - 87)) 0

/-- One `\uXXXX` escape of `parser.rs::string`: a UTF-16 code unit. -/
def utf16CharP : BParser Nat :=
  pmap (pright (pseq (strBytes "\\u")) (prepeat 4 (some 4) (pisA isHexDigitByte)))
    hexVal

/-- UTF-8 encoding of a unicode scalar value. -/
def utf8Encode (c : Nat) : List Nat :=
  if c < 0x80 then [c]
  else if c < 0x800 then [0xC0 + c / 0x40, 0x80 + c % 0x40]
  else if c < 0x10000 then
    [0xE0 + c / 0x1000, 0x80 + (c / 0x40) % 0x40, 0x80 + c % 0x40]
  else
    [0xF0 + c / 0x40000, 0x80 + (c / 0x1000) % 0x40, 0x80 + (c / 0x40) % 0x40,
      0x80 + c % 0x40]

/-- Rust `char::decode_utf16` with `unwrap_or(REPLACEMENT_CHARACTER)`, then
collecting into a `String`, which we render as UTF-8 bytes. -/
def decodeUtf16Lossy : List Nat → List Nat
  | [] => []
  | u :: rest =>
    if u < 0xD800 ∨ 0xE000 ≤ u then utf8Encode u ++ decodeUtf16Lossy rest
    else if u < 0xDC00 then
      match rest with
      | lo :: rest2 =>
        if 0xDC00 ≤ lo ∧ lo < 0xE000 then
          utf8Encode (0x10000 + (u - 0xD800) * 0x400 + (lo - 0xDC00)) ++
            decodeUtf16Lossy rest2
        else utf8Encode 0xFFFD ++ decodeUtf16Lossy (lo :: rest2)
      | [] => utf8Encode 0xFFFD
    else utf8Encode 0xFFFD ++ decodeUtf16Lossy rest
termination_by l => l.length
decreasing_by all_goals simp_all [List.length] <;> omega

/-- `parser.rs::string`'s `utf16_string` branch. -/
def utf16StringP : BParser (List Nat) :=
  pmap (prepeat 1 none utf16CharP) decodeUtf16Lossy

/-- `parser.rs::string`: a double-quoted string with escapes; the repeated
`char_string | utf16_string` chunks are concatenated. -/
def stringP : BParser (List Nat) :=
  pmap
    (pleft (pright (psym 34) (prepeat 0 none (palt charStringP utf16StringP)))
      (psym 34))
    List.flatten

/-- `parser.rs::identifier`: a letter or underscore, then letters, digits or
underscores. -/
def identifierP : BParser (List Nat) :=
  pmap (ppair (palt (pisA isAlphaByte) (psym 95))
      (prepeat 0 none (palt (pisA isAlphanumByte) (psym 95))))
    (fun pr => pr.1 :: pr.2)

/-- `parser.rs::string_literal`. -/
def stringLiteralP : BParser Literal := pmap stringP Literal.String

/-- `parser.rs::integer_literal`. -/
def integerLiteralP : BParser Literal := pmap integerP Literal.Integer

/-- `parser.rs::bool_literal`. -/
def boolLiteralP : BParser Literal :=
  palt (pmap (pseq (strBytes "true")) (fun _ => Literal.Bool true))
    (pmap (pseq (strBytes "false")) (fun _ => Literal.Bool false))

/-- `parser.rs::literal`: ordered choice string, integer, bool. -/
def literalP : BParser Literal :=
  palt stringLiteralP (palt integerLiteralP boolLiteralP)

/-- `parser.rs::literal_expression`. -/
def literalExpressionP : BParser Expression := pmap literalP Expression.Literal

/-- `parser.rs::variable_expression`: `$identifier`. -/
def variableExpressionP : BParser Expression :=
  pmap (pright (psym 36) identifierP) Expression.Variable

/-- `parser.rs::heredoc_expression`: `<<<TAG`, then everything up to the
first occurrence of `TAG>>>` via `until` (whose resume position skips one
byte past the terminator). -/
def heredocExpressionP : BParser Expression :=
  pmap
    (pbind
      (pright (pseq (strBytes "<<<"))
        (pconvert (pcollect (prepeat 1 none (pisA isAlphaByte)))
          (fun bytes => if utf8Valid bytes then some bytes else none)))
      (fun tag => puntil (tag ++ strBytes ">>>")))
    Expression.HereDoc

/-- `parser.rs::array_expression` and `parser.rs::expression`, with fuel for
the mutual recursion (each recursive step consumes at least one byte, so
fuel `input.length + 1` reproduces the Rust recursion). -/
def expressionF : Nat → BParser Expression
  | 0 => fun _ start => .error (.custom start)
  | fuel + 1 =>
    palt literalExpressionP
      (palt
        (pmap
          (pleft
            (pright (psym 91)
              (pright spacesP
                (plist (expressionF fuel) (pright (psym 44) spacesP))))
            (psym 93))
          Expression.Array)
        (palt heredocExpressionP variableExpressionP))

/-- `parser.rs::expression` at top level. -/
def expressionP : BParser Expression := fun input start =>
  expressionF (input.length + 1) input start

/-- `parser.rs::emptyline_statement`. -/
def emptylineStatementP : BParser Statement :=
  pmap (ppair spacesP (psym 10)) (fun _ => Statement.EmptyLine)

/-- `parser.rs::comment_statement`. -/
def commentStatementP : BParser Statement :=
  pleft
    (pright (psym 35)
      (pmap (pcollect (prepeat 0 none (pnoneOf [10]))) (fun _ => Statement.Comment)))
    (psym 10)

/-- `parser.rs::function_call_statement`. -/
def functionCallStatementP : BParser Statement :=
  pmap
    (pleft
      (ppair (pleft (pleft identifierP spacesP) (psym 40))
        (plist expressionP (ppair (psym 44) spacesP)))
      (psym 41))
    (fun pr => Statement.FnCall pr.1 pr.2)

/-- `parser.rs::assign_statement`. -/
def assignStatementP : BParser Statement :=
  pmap
    (ppair
      (pleft
        (pleft (pleft (pright spacesP (pright (pseq (strBytes "let"))
          (pright spacesP identifierP))) spacesP) (psym 61))
        spacesP)
      expressionP)
    (fun pr => Statement.Assign pr.1 pr.2)

/-- `parser.rs::single_remote_statement`. -/
def singleRemoteStatementP : BParser Statement :=
  pmap
    (pconvert
      (pleft (pright (ppair spacesP (psym 124))
        (pcollect (prepeat 0 none (pnoneOf [10])))) (psym 10))
      (fun bytes => if utf8Valid bytes then some bytes else none))
    Statement.RemoteSingle

/-- `parser.rs::multi_remote_statement`: a `+` header line, zero or more
`|`-lines, a closing `+` line. -/
def multiRemoteStatementP : BParser Statement :=
  pmap
    (pleft
      (pright
        (pleft (pright spacesP (pright (psym 43)
          (pcollect (prepeat 0 none (pnoneOf [10]))))) (psym 10))
        (prepeat 0 none
          (pconvert
            (pleft (pright (ppair spacesP (psym 124))
              (pcollect (prepeat 0 none (pnoneOf [10])))) (psym 10))
            (fun bytes => if utf8Valid bytes then some bytes else none))))
      (pleft (pleft (pright spacesP (psym 43)) spacesP) (psym 10)))
    Statement.Remote

/-- `parser.rs::for_loop_statement` and `parser.rs::statement`, with fuel
for the recursion through loop bodies. -/
def statementF : Nat → BParser Statement
  | 0 => fun _ start => .error (.custom start)
  | fuel + 1 =>
    palt commentStatementP
      (palt emptylineStatementP
        (palt assignStatementP
          (palt functionCallStatementP
            (palt singleRemoteStatementP
              (palt multiRemoteStatementP
                (pmap
                  (pleft
                    (ppair
                      (pleft
                        (ppair
                          (pleft
                            (pleft
                              (pleft
                                (pright spacesP (pright (pseq (strBytes "for"))
                                  (pright spacesP identifierP)))
                                spacesP)
                              (pseq (strBytes "in")))
                            spacesP)
                          expressionP)
                        (pright spacesP (psym 123)))
                      (prepeat 0 none (statementF fuel)))
                    (pright spacesP (psym 125)))
                  (fun pr => Statement.ForLoop pr.1.1 pr.1.2 pr.2)))))))

/-- `parser.rs::statement` at top level. -/
def statementP : BParser Statement := fun input start =>
  statementF (input.length + 1) input start

/-- `parser.rs::script_parser`: statements, an optional final newline, end
of input. -/
def scriptParserP : BParser ScriptAST :=
  pmap (pleft (pleft (prepeat 0 none statementP) (popt (psym 10))) pend)
    ScriptAST.mk

/-! ## Errors (`src/error.rs`) -/

/-- `error.rs::SeeedError` (the variants the embedded code can produce).
`badArgType` and `badArgument` carry their payload message. -/
inductive SeeedError where
  | ioError : SeeedError
  | sshError : SeeedError
  | badTarget : SeeedError
  | unknownFunction : SeeedError
  | wrongArgCount (expected got : Nat) : SeeedError
  | badArgType (msg : String) : SeeedError
  | badArgument (msg : String) : SeeedError
  | undefinedVar (name : List Nat) : SeeedError
  | parseError (message : List Nat) (line : Nat) (col : Nat)
      (lineContent : List Nat) (pointer : List Nat) : SeeedError
  | template (msg : List Nat) : SeeedError
  | iterateOverArray : SeeedError
  | utf8Error : SeeedError
  | genericSshError (msg : List Nat) : SeeedError
  | channelError (msg : List Nat) : SeeedError
deriving DecidableEq

/-- The `thiserror`-derived `Display` of `SeeedError`, as bytes. Note that
`BadArgType` and `BadArgument` do not interpolate their payload: both render
as the fixed text `bad argument to function call`. -/
def seeedErrorDisplay : SeeedError → List Nat
  | .ioError => strBytes "IO error while reading file"
  | .sshError => strBytes "SSH error"
  | .badTarget => strBytes "Incorrect target specified"
  | .unknownFunction => strBytes "unknown function invocation"
  | .wrongArgCount a b =>
    strBytes "wrong number of arguments, expected " ++ natDisplay a ++
      strBytes ", got " ++ natDisplay b
  | .badArgType _ => strBytes "bad argument to function call"
  | .badArgument _ => strBytes "bad argument to function call"
  | .undefinedVar n => strBytes "undefined variable " ++ n
  | .parseError message line col lineContent pointer =>
    strBytes "Parsing error at line " ++ natDisplay line ++ strBytes ":" ++
      natDisplay col ++ [10] ++ lineContent ++ [10] ++ pointer ++ [10] ++ message
  | .template msg => strBytes "template error " ++ msg
  | .iterateOverArray => strBytes "can only iterate over an array"
  | .utf8Error => strBytes "UTF-8 conversion error"
  | .genericSshError m => strBytes "SSH error: " ++ m
  | .channelError _ => strBytes "Channel communication error"

/-! ## Template expansion -/

/-- Variable environment: name to value, most recent binding first (write
semantics of `HashMap::insert`: a later insert shadows an earlier one). -/
def envInsert (name : List Nat) (v : Literal) (vars : List (List Nat × Literal)) :
    List (List Nat × Literal) := (name, v) :: vars

/-- Lookup of the current binding of `name`. -/
def envLookup (name : List Nat) : List (List Nat × Literal) → Option Literal
  | [] => none
  | (k, v) :: rest => if k = name then some v else envLookup name rest

/-- Placeholder body parser for the template engine model: after an opening
double brace, skip spaces/tabs, read an identifier, skip spaces/tabs, and
require a closing double brace; yields the identifier and the rest. -/
def parsePlaceholder (bytes : List Nat) : Option (List Nat × List Nat) :=
  let rest1 := bytes.dropWhile (fun b => b = 32 || b = 9)
  let ident := rest1.takeWhile (fun b => isAlphanumByte b || b = 95)
  match ident.head? with
  | some c =>
    if isAlphaByte c || c = 95 then
      let rest2 := (rest1.drop ident.length).dropWhile (fun b => b = 32 || b = 9)
      match rest2 with
      | 125 :: 125 :: r => some (ident, r)
      | _ => none
    else none
  | none => none

/-- Modelled from the spec: `script.rs::resolve_template` delegates to the
minijinja dependency, whose code is not part of this repository; this
definition follows the template-expansion contract of the spec (every
double-braced `identifier` placeholder is replaced by the display form of
the environment value — values being serialized through `Display`, so arrays
render as the opaque marker — an unresolvable placeholder or malformed
placeholder syntax fails), with byte 123 the opening brace. -/
def resolveTemplateAux (vars : List (List Nat × Literal)) :
    Nat → List Nat → Except SeeedError (List Nat)
  | 0, _ => .error (.template (strBytes "template recursion limit"))
  | _ + 1, [] => .ok []
  | fuel + 1, c :: rest =>
    if c = 123 then
      match rest with
      | 123 :: rest2 =>
        match parsePlaceholder rest2 with
        | none => .error (.template (strBytes "syntax error"))
        | some (name, rem) =>
          match envLookup name vars with
          | none => .error (.template (strBytes "undefined value"))
          | some v =>
            match resolveTemplateAux vars fuel rem with
            | .ok tail => .ok (literalDisplay v ++ tail)
            | .error e => .error e
      | _ =>
        match resolveTemplateAux vars fuel rest with
        | .ok tail => .ok (c :: tail)
        | .error e => .error e
    else
      match resolveTemplateAux vars fuel rest with
      | .ok tail => .ok (c :: tail)
      | .error e => .error e

/-- Modelled from the spec: `script.rs::resolve_template` (see
`resolveTemplateAux`). -/
def resolveTemplate (vars : List (List Nat × Literal)) (source : List Nat) :
    Except SeeedError (List Nat) :=
  resolveTemplateAux vars (source.length + 1) source

/-! ## The interpreter (`src/script.rs`, `src/built_in_functions.rs`) -/

/-- One operation handed to the `RemoteExecutor` trait object. The theorems
treat the executor as the repository's own test mock does: every operation
is recorded and succeeds. -/
inductive RemoteOp where
  | connect (target : List Nat) : RemoteOp
  | run (text : List Nat) : RemoteOp
  | upload (content : List Nat) (dstPath : List Nat) : RemoteOp
  | commandOp (text : List Nat) : RemoteOp
deriving DecidableEq

/-- Console output produced while interpreting (`println!`/`console::` calls
in `script.rs` and `built_in_functions.rs`). Payloads are carried
structurally; the `Debug` formatting of statements is not modelled. -/
inductive ConsoleEvent where
  | scriptContentHeader : ConsoleEvent
  | statementDebug (s : Statement) : ConsoleEvent
  | executingFunction (name : List Nat) : ConsoleEvent
  | unknownFunctionMsg (name : List Nat) : ConsoleEvent
  | echoMessage (text : List Nat) : ConsoleEvent
  | connectingMsg (target : List Nat) : ConsoleEvent
  | forLoopErrorMsg (e : Expression) : ConsoleEvent
  | uploadLoadErrorMsg : ConsoleEvent

/-- `script.rs::ScriptContext` (the `contents` string is passed separately
to `runScript`; the ssh client is the recorded `remoteOps` trace; the field
`vars` embeds the source's `variables` map, a name Lean reserves). The two
functions stand for the ambient machine: `localShell` returns the exit code
of `sh -c <cmd>` (`none` = the process could not be spawned), `localFs`
returns the bytes of a local file (`none` = read error). -/
structure Ctx where
  target : Option (List Nat)
  useSudo : Bool
  vars : List (List Nat × Literal)
  connected : Bool
  remoteOps : List RemoteOp
  localShell : List Nat → Option Nat
  localFs : List Nat → Option (List Nat)

/-- Result of an interpreter step: outcome, updated context (kept even on
the error path, as with `&mut self` in Rust), console events in order. -/
abbrev EvalRes (α : Type) : Type := Except SeeedError α × Ctx × List ConsoleEvent

/-- `script.rs::ensure_connected`: if already connected do nothing; else use
`self.target` — the externally supplied override — or fail with `BadTarget`.
(The script's `target` variable is never consulted, despite the comment in
the source.) -/
def ensureConnected (ctx : Ctx) : EvalRes Unit :=
  if ctx.connected then (.ok (), ctx, [])
  else
    match ctx.target with
    | some t =>
      (.ok (), { ctx with connected := true, remoteOps := ctx.remoteOps ++ [.connect t] },
        [.connectingMsg t])
    | none => (.error .badTarget, ctx, [])

/-- `built_in_functions.rs::execute_echo`: print each argument's display
text locally. -/
def executeEcho (ctx : Ctx) (args : List Literal) : EvalRes Unit :=
  (.ok (), ctx, args.map (fun a => .echoMessage (literalDisplay a)))

/-- `built_in_functions.rs::execute_upload`: arity check, then the first
argument must be `String` (a local path, read from disk) or `HereDoc`
(inline content), the second a `String`; then the remote upload is invoked. -/
def executeUpload (ctx : Ctx) (args : List Literal) : EvalRes Unit :=
  if args.length = 2 then
    match args with
    | [source, target] =>
      match source with
      | .String _ | .HereDoc _ =>
        match target with
        | .String _ =>
          match source with
          | .HereDoc content =>
            (.ok (),
              { ctx with remoteOps := ctx.remoteOps ++ [.upload content (literalDisplay target)] },
              [])
          | .String filePath =>
            match ctx.localFs filePath with
            | some contents =>
              (.ok (),
                { ctx with remoteOps := ctx.remoteOps ++ [.upload contents (literalDisplay target)] },
                [])
            | none => (.error (.badArgument "loading failed"), ctx, [.uploadLoadErrorMsg])
          | _ => (.error (.badArgument "could not load file content"), ctx, [])
        | _ => (.error (.badArgType "second argument of upload must be a string"), ctx, [])
      | _ => (.error (.badArgType "first argument of upload must be a string or a heredoc"), ctx, [])
    | _ => (.error (.badArgument "missing source argument"), ctx, [])
  else (.error (.wrongArgCount 2 args.length), ctx, [])

/-- `built_in_functions.rs::execute_exec`: exactly one argument; its display
text is run as a local shell command; a spawn failure and a non-zero exit
status are both reported as `BadArgument` errors. -/
def executeExec (ctx : Ctx) (args : List Literal) : EvalRes Unit :=
  if args.length = 1 then
    match args with
    | [arg] =>
      match ctx.localShell (literalDisplay arg) with
      | none => (.error (.badArgument "Failed to execute command"), ctx, [])
      | some code =>
        if code ≠ 0 then (.error (.badArgument "Command execution failed"), ctx, [])
        else (.ok (), ctx, [])
    | _ => (.error (.wrongArgCount 1 args.length), ctx, [])
  else (.error (.wrongArgCount 1 args.length), ctx, [])

/-- `built_in_functions.rs::execute_function`: announce the call, dispatch
by exact name, unknown names fail. -/
def executeFunction (ctx : Ctx) (name : List Nat) (args : List Literal) : EvalRes Unit :=
  if name = strBytes "echo" then
    match executeEcho ctx args with
    | (r, c, evs) => (r, c, .executingFunction name :: evs)
  else if name = strBytes "upload" then
    match executeUpload ctx args with
    | (r, c, evs) => (r, c, .executingFunction name :: evs)
  else if name = strBytes "exec" then
    match executeExec ctx args with
    | (r, c, evs) => (r, c, .executingFunction name :: evs)
  else
    (.error .unknownFunction, ctx, [.executingFunction name, .unknownFunctionMsg name])

/-- `script.rs::call_builtin_function`: run the built-in, discard its unit
result, return `Void`. -/
def callBuiltinFunction (ctx : Ctx) (name : List Nat) (args : List Literal) : EvalRes Literal :=
  match executeFunction ctx name args with
  | (.ok _, c, evs) => (.ok .Void, c, evs)
  | (.error e, c, evs) => (.error e, c, evs)

mutual

/-- `script.rs::evaluate`: string and heredoc literals are template-expanded
at evaluation time and re-wrapped; variables resolve through the environment
or fail; function calls evaluate arguments left-to-right (short-circuiting,
via `collect::<Result<...>>`) then dispatch; arrays evaluate elementwise. -/
def evaluate (ctx : Ctx) : Expression → EvalRes Literal
  | .Literal lit =>
    match lit with
    | .HereDoc content =>
      match resolveTemplate ctx.vars content with
      | .ok s => (.ok (.HereDoc s), ctx, [])
      | .error e => (.error e, ctx, [])
    | .String content =>
      match resolveTemplate ctx.vars content with
      | .ok s => (.ok (.String s), ctx, [])
      | .error e => (.error e, ctx, [])
    | l => (.ok l, ctx, [])
  | .Variable name =>
    match envLookup name ctx.vars with
    | some v => (.ok v, ctx, [])
    | none => (.error (.undefinedVar name), ctx, [])
  | .FnCall name args =>
    match evalList ctx args with
    | (.ok vals, ctx2, evs) =>
      match callBuiltinFunction ctx2 name vals with
      | (r, ctx3, evs2) => (r, ctx3, evs ++ evs2)
    | (.error e, ctx2, evs) => (.error e, ctx2, evs)
  | .Array elems =>
    match evalList ctx elems with
    | (.ok vals, ctx2, evs) => (.ok (.Array vals), ctx2, evs)
    | (.error e, ctx2, evs) => (.error e, ctx2, evs)
  | .HereDoc content =>
    match resolveTemplate ctx.vars content with
    | .ok s => (.ok (.HereDoc s), ctx, [])
    | .error e => (.error e, ctx, [])

/-- Left-to-right evaluation of expressions, stopping at the first error
(`collect::<Result<Vec<_>, _>>` in expression position). -/
def evalList (ctx : Ctx) : List Expression → EvalRes (List Literal)
  | [] => (.ok [], ctx, [])
  | e :: rest =>
    match evaluate ctx e with
    | (.ok v, ctx2, evs) =>
      match evalList ctx2 rest with
      | (.ok vs, ctx3, evs2) => (.ok (v :: vs), ctx3, evs ++ evs2)
      | (.error err, ctx3, evs2) => (.error err, ctx3, evs ++ evs2)
    | (.error err, ctx2, evs) => (.error err, ctx2, evs)

end

/-- Argument evaluation of a `FnCall` statement: the source first collects a
`Vec<Result<Literal, SeeedError>>` — evaluating every argument even after a
failure — and only then transposes. -/
def evalListAll (ctx : Ctx) : List Expression →
    List (Except SeeedError Literal) × Ctx × List ConsoleEvent
  | [] => ([], ctx, [])
  | e :: rest =>
    match evaluate ctx e with
    | (r, ctx2, evs) =>
      match evalListAll ctx2 rest with
      | (rs, ctx3, evs2) => (r :: rs, ctx3, evs ++ evs2)

/-- The `into_iter().collect::<Result<Vec<_>, _>>()` transposition: first
error wins. -/
def transposeResults : List (Except SeeedError Literal) → Except SeeedError (List Literal)
  | [] => .ok []
  | .ok v :: rest =>
    match transposeResults rest with
    | .ok vs => .ok (v :: vs)
    | .error e => .error e
  | .error e :: _ => .error e

/-- `lines.join("\n")` for a `Remote` block. -/
def joinLines (lines : List (List Nat)) : List Nat := List.intercalate [10] lines

/-- Sequential execution of a statement list, aborting at the first error;
the statement runner is a parameter so that the recursion is structural. -/
def seqStmts (g : Ctx → Statement → EvalRes Unit) : Ctx → List Statement → EvalRes Unit
  | ctx, [] => (.ok (), ctx, [])
  | ctx, s :: rest =>
    match g ctx s with
    | (.ok _, ctx2, evs) =>
      match seqStmts g ctx2 rest with
      | (r, ctx3, evs2) => (r, ctx3, evs ++ evs2)
    | (.error e, ctx2, evs) => (.error e, ctx2, evs)

/-- The `for literal in literals` iteration of a `ForLoop`: bind the loop
variable in the shared flat environment, then run the body; abort at the
first error. -/
def loopIter (runBody : Ctx → EvalRes Unit) (varname : List Nat) :
    Ctx → List Literal → EvalRes Unit
  | ctx, [] => (.ok (), ctx, [])
  | ctx, lit :: rest =>
    match runBody { ctx with vars := envInsert varname lit ctx.vars } with
    | (.ok _, ctx2, evs) =>
      match loopIter runBody varname ctx2 rest with
      | (r, ctx3, evs2) => (r, ctx3, evs ++ evs2)
    | (.error e, ctx2, evs) => (.error e, ctx2, evs)

/-- `script.rs::execute_statement`. The fuel only bounds the nesting depth
of `ForLoop` bodies (it decreases solely when descending into a loop body);
since every nesting level of a parsed script consumes at least one source
byte, fuel `contents.length + 1` makes this agree with the Rust recursion on
every parseable script — the fuel-exhaustion branch is unreachable there. -/
def execStmtF : Nat → Ctx → Statement → EvalRes Unit
  | 0, ctx, _ => (.error (.channelError (strBytes "loop nesting exceeds fuel")), ctx, [])
  | fuel + 1, ctx, stmt =>
    match stmt with
    | .Comment => (.ok (), ctx, [])
    | .EmptyLine => (.ok (), ctx, [])
    | .Assign name e =>
      match evaluate ctx e with
      | (.ok lit, ctx2, evs) =>
        (.ok (), { ctx2 with vars := envInsert name lit ctx2.vars }, evs)
      | (.error err, ctx2, evs) => (.error err, ctx2, evs)
    | .RemoteSingle line =>
      match ensureConnected ctx with
      | (.ok _, ctx2, evs) =>
        match resolveTemplate ctx2.vars line with
        | .ok text => (.ok (), { ctx2 with remoteOps := ctx2.remoteOps ++ [.run text] }, evs)
        | .error e => (.error e, ctx2, evs)
      | (.error e, ctx2, evs) => (.error e, ctx2, evs)
    | .Remote lines =>
      match ensureConnected ctx with
      | (.ok _, ctx2, evs) =>
        match resolveTemplate ctx2.vars (joinLines lines) with
        | .ok text => (.ok (), { ctx2 with remoteOps := ctx2.remoteOps ++ [.run text] }, evs)
        | .error e => (.error e, ctx2, evs)
      | (.error e, ctx2, evs) => (.error e, ctx2, evs)
    | .FnCall name args =>
      match evalListAll ctx args with
      | (rs, ctx2, evs) =>
        match transposeResults rs with
        | .ok vals =>
          match callBuiltinFunction ctx2 name vals with
          | (.ok _, ctx3, evs2) => (.ok (), ctx3, evs ++ evs2)
          | (.error e, ctx3, evs2) => (.error e, ctx3, evs ++ evs2)
        | .error e => (.error e, ctx2, evs)
    | .ForLoop varname e body =>
      match evaluate ctx e with
      | (.ok lit, ctx2, evs) =>
        match lit with
        | .Array lits =>
          match loopIter (fun c => seqStmts (execStmtF fuel) c body) varname ctx2 lits with
          | (r, ctx3, evs2) => (r, ctx3, evs ++ evs2)
        | _ => (.error .iterateOverArray, ctx2, evs ++ [.forLoopErrorMsg e])
      | (.error err, ctx2, evs) => (.error err, ctx2, evs)

/-! ## The run entry point (`script.rs::run`) -/

/-- Line/column bookkeeping of `script.rs::run`'s parse-error mapping:
walk the text up to the error offset counting newlines; returns the 1-based
line and the offset of the last newline before the error (−1 if none). -/
def lineColAux : List Nat → Nat → Nat → Nat → Int → Nat × Int
  | [], _, _, line, lastNl => (line, lastNl)
  | c :: rest, i, position, line, lastNl =>
    if position ≤ i then (line, lastNl)
    else if c = 10 then lineColAux rest (i + 1) position (line + 1) (i : Int)
    else lineColAux rest (i + 1) position line lastNl

/-- A finished source line of Rust `str::lines`: reverse the accumulator and
strip one trailing carriage return. -/
def finishLine (acc : List Nat) : List Nat :=
  (match acc with
   | 13 :: t => t
   | l => l).reverse

/-- Rust `str::lines` over bytes. -/
def rustLinesAux : List Nat → List Nat → List (List Nat)
  | [], acc => if acc.isEmpty then [] else [finishLine acc]
  | c :: rest, acc =>
    if c = 10 then finishLine acc :: rustLinesAux rest []
    else rustLinesAux rest (c :: acc)

/-- Rust `str::lines` over bytes. -/
def rustLines (l : List Nat) : List (List Nat) := rustLinesAux l []

/-- The position a pom error reports (`Incomplete` maps to the input
length, as in `script.rs::run`). -/
def pomErrPosition (contentsLen : Nat) : PomErr → Nat
  | .incomplete => contentsLen
  | .mismatch p => p
  | .conversionErr p => p
  | .custom p => p

/-- Coarse stand-in for `format!("{:?}", e)` on a pom error (the exact debug
string is not modelled; no claim inspects it). -/
def pomErrDebug : PomErr → List Nat
  | .incomplete => strBytes "Incomplete"
  | .mismatch _ => strBytes "Mismatch"
  | .conversionErr _ => strBytes "Conversion"
  | .custom _ => strBytes "Custom"

/-- The `SeeedError::ParseError` built by `script.rs::run` lines 102-134:
1-based line and column derived from the error offset, the offending source
line, and a caret pointer. -/
def mkParseError (contents : List Nat) (e : PomErr) : SeeedError :=
  let position := pomErrPosition contents.length e
  let lc := lineColAux contents 0 position 1 (-1)
  let col : Int := (position : Int) - lc.2
  .parseError (pomErrDebug e) lc.1 col.toNat
    ((rustLines contents).getD (lc.1 - 1) [])
    (List.replicate (col - 1).toNat 32 ++ [94])

/-- The debug print of the parsed program (`script.rs::run` lines 138-143). -/
def debugEvents (stmts : List Statement) : List ConsoleEvent :=
  .scriptContentHeader :: stmts.map .statementDebug

/-- `script.rs::run`: parse the script (mapping a pom failure to
`ParseError`), print the program when the debug flag is set, then execute
every statement in order. -/
def runScript (debug : Bool) (contents : List Nat) (ctx : Ctx) : EvalRes Unit :=
  match scriptParserP contents 0 with
  | .error e => (.error (mkParseError contents e), ctx, [])
  | .ok (ast, _) =>
    let dbg := if debug then debugEvents ast.statements else []
    match seqStmts (execStmtF (contents.length + 1)) ctx ast.statements with
    | (r, ctx2, evs) => (r, ctx2, dbg ++ evs)

/-! ## The process entry point (`src/main.rs`) -/

/-- `main.rs` lines 61-69: after `script_context.run`, print one final
status line — the success message, or the failure message with the error's
display — and in both cases return `Ok(())` to the process. -/
def mainHandleResult (res : Except SeeedError Unit) :
    List (List Nat) × Except SeeedError Unit :=
  match res with
  | .ok _ => ([strBytes "script completed successfully"], .ok ())
  | .error e => ([strBytes "script execution failed : " ++ seeedErrorDisplay e], .ok ())

/-! ## The streaming run operation (`src/sshclient.rs::run_impl`) -/

/-- One read attempt's outcome on a remote output stream, as seen by the
non-blocking poll loop: a chunk of bytes, a `WouldBlock`, or another I/O
error; end-of-stream (`Ok(0)`) is the end of the event list. -/
inductive ReadEvt where
  | chunk (bytes : List Nat) : ReadEvt
  | wouldBlock : ReadEvt
  | fail (msg : List Nat) : ReadEvt
deriving DecidableEq

/-- A line printed by the poll loop (stdout in yellow, stderr in red). -/
inductive OutLine where
  | out (l : List Nat) : OutLine
  | errOut (l : List Nat) : OutLine
deriving DecidableEq

/-- The newline-drain of the poll loop: split a buffer into the complete
lines (each including its trailing newline) and the remainder. -/
def splitCompleteLinesGo : List Nat → List Nat → List (List Nat) × List Nat
  | acc, [] => ([], acc.reverse)
  | acc, c :: rest =>
    if c = 10 then
      match splitCompleteLinesGo [] rest with
      | (ls, rem) => ((acc.reverse ++ [10]) :: ls, rem)
    else splitCompleteLinesGo (c :: acc) rest

/-- One non-blocking read on one stream: end-of-events is `Ok(0)` (stream
done), a chunk extends the buffer and drains complete lines, `WouldBlock`
is skipped, any other error aborts. Returns the printed lines, remaining
events, new buffer and done flag. -/
def streamStep (evts : List ReadEvt) (buf : List Nat) :
    Except (List Nat) (List (List Nat) × List ReadEvt × List Nat × Bool) :=
  match evts with
  | [] => .ok ([], [], buf, true)
  | .chunk bytes :: rest =>
    match splitCompleteLinesGo [] (buf ++ bytes) with
    | (ls, rem) => .ok (ls, rest, rem, false)
  | .wouldBlock :: rest => .ok ([], rest, buf, false)
  | .fail msg :: _ => .error msg

/-- The poll loop of `run_impl` (lines 178-225): read stdout then stderr
(skipping a stream already done), abort on a hard I/O error, stop when both
streams are done. The brief sleep when no progress is made has no observable
effect here. Fueled; every iteration that recurses consumed at least one
event, so fuel `|stdout| + |stderr| + 2` reproduces the Rust loop. -/
def runImplLoop : Nat → List ReadEvt → List ReadEvt → List Nat → List Nat →
    Bool → Bool → Except SeeedError (List OutLine × List Nat × List Nat)
  | 0, _, _, _, _, _, _ => .error (.channelError (strBytes "poll loop fuel exhausted"))
  | fuel + 1, outEvts, errEvts, outBuf, errBuf, outDone, errDone =>
    match (if outDone then .ok ([], outEvts, outBuf, true) else streamStep outEvts outBuf) with
    | .error msg => .error (.genericSshError msg)
    | .ok (lines1, outEvts2, outBuf2, outDone2) =>
      match (if errDone then .ok ([], errEvts, errBuf, true) else streamStep errEvts errBuf) with
      | .error msg => .error (.genericSshError msg)
      | .ok (lines2, errEvts2, errBuf2, errDone2) =>
        let printed := lines1.map OutLine.out ++ lines2.map OutLine.errOut
        if outDone2 && errDone2 then .ok (printed, outBuf2, errBuf2)
        else
          match runImplLoop fuel outEvts2 errEvts2 outBuf2 errBuf2 outDone2 errDone2 with
          | .ok (more, b1, b2) => .ok (printed ++ more, b1, b2)
          | .error e => .error e

/-- `sshclient.rs::run_impl`: `setup` stands for the staging phase (create
the uniquely named ephemeral remote file, write the script, `exec` bash with
the optional sudo prefix) — any failure there propagates; then the poll loop
streams output; finally a partial line left in either buffer is flushed.
`exitStatus` is the remote process's exit status: mirroring the source, it
is never consulted — `run_impl` returns `Ok` whenever setup and the streams
succeed. -/
def runImpl (useSudo : Bool) (script : List Nat) (setup : Except SeeedError Unit)
    (exitStatus : Int) (stdoutEvts stderrEvts : List ReadEvt) :
    Except SeeedError (List OutLine) :=
  match setup with
  | .error e => .error e
  | .ok _ =>
    match runImplLoop (stdoutEvts.length + stderrEvts.length + 2)
        stdoutEvts stderrEvts [] [] false false with
    | .error e => .error e
    | .ok (lines, outBuf, errBuf) =>
      .ok (lines ++ (if outBuf.isEmpty then [] else [.out outBuf]) ++
        (if errBuf.isEmpty then [] else [.errOut errBuf]))

/-! ## Fixtures and predicates used by the verification -/

/-- A concrete local shell for witnesses: `true` exits 0, anything else 1. -/
def demoShell : List Nat → Option Nat := fun cmd =>
  if cmd = strBytes "true" then some 0 else some 1

/-- A concrete context with an external target override. -/
def demoCtx : Ctx :=
  { target := some (strBytes "user@host"), useSudo := false, vars := [],
    connected := false, remoteOps := [], localShell := demoShell,
    localFs := fun _ => none }

/-- A concrete context without any external target override. -/
def demoCtxNoTarget : Ctx := { demoCtx with target := none }

/-- Whether a byte list contains two adjacent opening braces (byte 123),
i.e. the start of a template placeholder. -/
def hasDoubleOpen : List Nat → Bool
  | [] => false
  | c :: rest => (decide (c = 123) && decide (rest.head? = some 123)) || hasDoubleOpen rest

/-- All read events on a stream are chunks or `WouldBlock` — the stream
completes without a transport error. -/
def noFailEvt : List ReadEvt → Bool
  | [] => true
  | .fail _ :: _ => false
  | _ :: rest => noFailEvt rest

/-- The first occurrence of `needle` inside `hay` is at index `k`. -/
def occursAtFirst (needle hay : List Nat) (k : Nat) : Prop :=
  needle.isPrefixOf (hay.drop k) = true ∧
    ∀ j, j < k → needle.isPrefixOf (hay.drop j) = false

/-- Declarative big-step semantics of one `ForLoop` iteration sequence: the
body is run exactly once per element, in array order, each time from the
then-current context with the loop variable bound to that element in the
shared flat environment, and the console events accumulate in order. Used to
characterize the executable `loopIter`. -/
inductive LoopRun (runBody : Ctx → EvalRes Unit) (varname : List Nat) :
    Ctx → List Literal → Ctx → List ConsoleEvent → Prop where
  | nil : ∀ ctx, LoopRun runBody varname ctx [] ctx []
  | cons : ∀ ctx lit rest ctx2 evs1 ctxF evs2,
      runBody { ctx with vars := envInsert varname lit ctx.vars } =
        (.ok (), ctx2, evs1) →
      LoopRun runBody varname ctx2 rest ctxF evs2 →
      LoopRun runBody varname ctx (lit :: rest) ctxF (evs1 ++ evs2)

/-! ## Claim theorems -/

/-- C1: the claim says that, absent an external override, the script
variable literally named `target` is used when the first remote-touching
statement executes. The code does not do this: `ensure_connected` consults
only the externally supplied `self.target`. Running the script of the
repository's own test `test_target_from_script_variable` — which assigns
`target` and then executes a remote statement — with no override fails with
`BadTarget` and performs no remote operation, even though the variable is
bound in the environment at that moment. -/
theorem c1_script_target_variable_ignored :
    (runScript false
      (strBytes "let target = \"script_user@script_host\"\n| echo \"hello\"\n")
      demoCtxNoTarget).1 = .error .badTarget ∧
    (runScript false
      (strBytes "let target = \"script_user@script_host\"\n| echo \"hello\"\n")
      demoCtxNoTarget).2.1.remoteOps = [] ∧
    envLookup (strBytes "target")
      (runScript false
        (strBytes "let target = \"script_user@script_host\"\n| echo \"hello\"\n")
        demoCtxNoTarget).2.1.vars =
      some (.String (strBytes "script_user@script_host")) :=
  ⟨rfl, rfl, rfl⟩

/-- C2 counterexample: with the debug flag set, `run` prints the program and
then executes it anyway — a remote script connects and invokes the remote
run operation, and an assignment mutates the environment, contradicting the
claim that nothing is executed and the traces stay empty. -/
theorem c2_debug_still_executes :
    (runScript true (strBytes "|echo hi\n") demoCtx).2.1.remoteOps =
      [.connect (strBytes "user@host"), .run (strBytes "echo hi")] ∧
    (runScript true (strBytes "|echo hi\n") demoCtx).2.1.remoteOps ≠ [] ∧
    envLookup (strBytes "x")
      ((runScript true (strBytes "let x = 10") demoCtx).2.1.vars) =
      some (.Integer 10) :=
  ⟨rfl, by decide, rfl⟩

/-- C2 amended: if the debug flag is set, the run prints the parsed program
(the `script content :` header and one line per statement) and then executes
the script exactly as it would without the flag: same outcome, same final
context (environment, connection state and remote-operation trace); only the
debug print is prepended to the console output. -/
theorem c2_debug_prints_then_runs (contents : List Nat) (ctx : Ctx) :
    (runScript true contents ctx).1 = (runScript false contents ctx).1 ∧
    (runScript true contents ctx).2.1 = (runScript false contents ctx).2.1 ∧
    ∀ ast pos, scriptParserP contents 0 = .ok (ast, pos) →
      (runScript true contents ctx).2.2 =
        debugEvents ast.statements ++ (runScript false contents ctx).2.2 := by
  unfold runScript
  cases h : scriptParserP contents 0 with
  | error e => exact ⟨rfl, rfl, fun ast pos hc => Except.noConfusion hc⟩
  | ok r =>
    obtain ⟨ast, pos⟩ := r
    refine ⟨?_, ?_, ?_⟩
    · cases hx : seqStmts (execStmtF (contents.length + 1)) ctx ast.statements; rfl
    · cases hx : seqStmts (execStmtF (contents.length + 1)) ctx ast.statements with
      | mk fst snd => cases snd; rfl
    · intro ast2 pos2 hc
      injection hc with h12
      injection h12 with ha hp
      subst ha
      cases hx : seqStmts (execStmtF (contents.length + 1)) ctx ast.statements with
      | mk fst snd => cases snd; rfl

/-- C2 amended, witness: at the one-assignment script the debug run's
console output is the debug print followed by the plain run's output. -/
theorem c2_debug_prints_then_runs_witness :
    (runScript true (strBytes "let x = 10") demoCtx).2.2 =
      debugEvents [Statement.Assign (strBytes "x")
        (.Literal (.Integer 10))] ++
        (runScript false (strBytes "let x = 10") demoCtx).2.2 :=
  (c2_debug_prints_then_runs (strBytes "let x = 10") demoCtx).2.2
    ⟨[Statement.Assign (strBytes "x") (.Literal (.Integer 10))]⟩ 10 rfl

/-- C3 counterexample: when the run fails (here with `BadTarget`), `main`
prints the failure status line but returns `Ok(())` — the process reports
success, contradicting the claim that it reports non-success. -/
theorem c3_failure_still_exits_ok :
    mainHandleResult (.error .badTarget) =
      ([strBytes "script execution failed : Incorrect target specified"],
        .ok ()) :=
  rfl

/-- C3 amended: after any run, exactly one final status line is printed —
the success message, or the failure message carrying the error's display —
but the process result is `Ok(())` in both cases: the exit status does not
reflect a run failure (only failures before the run, such as reading the
script file, propagate as process non-success). -/
theorem c3_status_line_printed_exit_ok (debug : Bool) (contents : List Nat) (ctx : Ctx) :
    (mainHandleResult (runScript debug contents ctx).1).2 = .ok () ∧
    (mainHandleResult (runScript debug contents ctx).1).1 =
      [match (runScript debug contents ctx).1 with
       | .ok _ => strBytes "script completed successfully"
       | .error e => strBytes "script execution failed : " ++ seeedErrorDisplay e] := by
  cases (runScript debug contents ctx).1 <;> exact ⟨rfl, rfl⟩

/-- C3 amended, witness: at a concrete failing run (no target anywhere, a
remote statement) the status line carries the error display and the process
result is `Ok(())`. -/
theorem c3_status_line_printed_exit_ok_witness :
    (mainHandleResult (runScript false (strBytes "|x\n") demoCtxNoTarget).1).2 =
      .ok () ∧
    (mainHandleResult (runScript false (strBytes "|x\n") demoCtxNoTarget).1).1 =
      [match (runScript false (strBytes "|x\n") demoCtxNoTarget).1 with
       | .ok _ => strBytes "script completed successfully"
       | .error e => strBytes "script execution failed : " ++ seeedErrorDisplay e] :=
  c3_status_line_printed_exit_ok false (strBytes "|x\n") demoCtxNoTarget

/-- Helper for C5: inserting the loop variable makes it the visible binding,
whatever was bound before (overwriting). -/
theorem envLookup_envInsert_self (varname : List Nat) (lit : Literal)
    (vs : List (List Nat × Literal)) :
    envLookup varname (envInsert varname lit vs) = some lit := by
  simp [envInsert, envLookup]

/-- Helper for C5: inserting the loop variable leaves every other name's
binding unchanged — the environment is shared and flat. -/
theorem envLookup_envInsert_ne (name varname : List Nat) (lit : Literal)
    (vs : List (List Nat × Literal)) (h : name ≠ varname) :
    envLookup name (envInsert varname lit vs) = envLookup name vs := by
  simp only [envInsert, envLookup]
  rw [if_neg (fun hh => h hh.symm)]

/-- Helper for C5: a name bound in `vs` is still bound after any bindings
are stacked in front. -/
theorem envLookup_append_bound (p vs : List (List Nat × Literal))
    (name : List Nat) (v : Literal) (h : envLookup name vs = some v) :
    ∃ w, envLookup name (p ++ vs) = some w := by
  induction p with
  | nil => exact ⟨v, h⟩
  | cons kv p ih =>
    obtain ⟨w, hw⟩ := ih
    obtain ⟨k, u⟩ := kv
    by_cases hk : k = name
    · exact ⟨u, by simp [envLookup, hk]⟩
    · exact ⟨w, by simpa [envLookup, hk] using hw⟩

/-- Helper for C5: `echo` never touches the variable environment. -/
theorem executeEcho_vars (ctx : Ctx) (args : List Literal) :
    ((executeEcho ctx args).2.1).vars = ctx.vars := rfl

/-- Helper for C5: `upload` never touches the variable environment. -/
theorem executeUpload_vars (ctx : Ctx) (args : List Literal) :
    ((executeUpload ctx args).2.1).vars = ctx.vars := by
  unfold executeUpload
  repeat' split
  all_goals rfl

/-- Helper for C5: `exec` never touches the variable environment. -/
theorem executeExec_vars (ctx : Ctx) (args : List Literal) :
    ((executeExec ctx args).2.1).vars = ctx.vars := by
  unfold executeExec
  repeat' split
  all_goals rfl

/-- Helper for C5: built-in dispatch never touches the variable environment. -/
theorem executeFunction_vars (ctx : Ctx) (name : List Nat) (args : List Literal) :
    ((executeFunction ctx name args).2.1).vars = ctx.vars := by
  unfold executeFunction
  split
  · rcases h : executeEcho ctx args with ⟨r, c, evs⟩
    have hv := executeEcho_vars ctx args
    rw [h] at hv
    simp [h]
    exact hv
  · split
    · rcases h : executeUpload ctx args with ⟨r, c, evs⟩
      have hv := executeUpload_vars ctx args
      rw [h] at hv
      simp [h]
      exact hv
    · split
      · rcases h : executeExec ctx args with ⟨r, c, evs⟩
        have hv := executeExec_vars ctx args
        rw [h] at hv
        simp [h]
        exact hv
      · rfl

/-- Helper for C5: `call_builtin_function` never touches the variable
environment. -/
theorem callBuiltinFunction_vars (ctx : Ctx) (name : List Nat)
    (args : List Literal) :
    ((callBuiltinFunction ctx name args).2.1).vars = ctx.vars := by
  rcases h : executeFunction ctx name args with ⟨r, c, evs⟩
  have hv := executeFunction_vars ctx name args
  rw [h] at hv
  cases r <;> simp [callBuiltinFunction, h] <;> exact hv

/-- Helper for C5: `ensure_connected` never touches the variable
environment. -/
theorem ensureConnected_vars (ctx : Ctx) :
    ((ensureConnected ctx).2.1).vars = ctx.vars := by
  unfold ensureConnected
  repeat' split
  all_goals rfl

/-- Helper for C5: every `List` has positive `sizeOf`. -/
theorem list_sizeOf_pos {α : Type} [SizeOf α] (l : List α) : 1 ≤ sizeOf l := by
  cases l <;> simp_arith

/-- Helper for C5: expression evaluation never changes the variable
environment (only `Assign` and loop binding write to it, and those are
statements); proved together with its list version by strong induction on
the expression size. -/
theorem evaluate_vars_aux :
    ∀ n : Nat,
      (∀ (e : Expression) (ctx : Ctx), sizeOf e < n →
        ((evaluate ctx e).2.1).vars = ctx.vars) ∧
      (∀ (es : List Expression) (ctx : Ctx), sizeOf es < n →
        ((evalList ctx es).2.1).vars = ctx.vars) := by
  intro n
  induction n with
  | zero =>
    constructor <;> intro x ctx h <;> exact absurd h (Nat.not_lt_zero _)
  | succ m ih =>
    constructor
    · intro e ctx he
      match e with
      | .Literal lit =>
        cases lit with
        | HereDoc content => cases h : resolveTemplate ctx.vars content <;> simp [evaluate, h]
        | String s => cases h : resolveTemplate ctx.vars s <;> simp [evaluate, h]
        | Integer i => rfl
        | Bool b => rfl
        | Array l => rfl
        | Void => rfl
      | .Variable name => cases h : envLookup name ctx.vars <;> simp [evaluate, h]
      | .FnCall name args =>
        have hargs : sizeOf args < m := by
          have hs : sizeOf (Expression.FnCall name args) = 1 + sizeOf name + sizeOf args := by
            simp
          have hn := list_sizeOf_pos name
          omega
        rcases hl : evalList ctx args with ⟨r, c2, evs⟩
        have h2 : c2.vars = ctx.vars := by
          have hx := ih.2 args ctx hargs
          rw [hl] at hx
          exact hx
        cases r with
        | ok vals =>
          rcases hcb : callBuiltinFunction c2 name vals with ⟨r2, c3, evs2⟩
          have h3 : c3.vars = c2.vars := by
            have hx := callBuiltinFunction_vars c2 name vals
            rw [hcb] at hx
            exact hx
          cases r2 <;> simp [evaluate, hl, hcb] <;> rw [h3, h2]
        | error err =>
          simp [evaluate, hl]
          exact h2
      | .Array elems =>
        have helems : sizeOf elems < m := by
          have hs : sizeOf (Expression.Array elems) = 1 + sizeOf elems := by simp
          omega
        rcases hl : evalList ctx elems with ⟨r, c2, evs⟩
        have h2 : c2.vars = ctx.vars := by
          have hx := ih.2 elems ctx helems
          rw [hl] at hx
          exact hx
        cases r <;> simp [evaluate, hl] <;> exact h2
      | .HereDoc content => cases h : resolveTemplate ctx.vars content <;> simp [evaluate, h]
    · intro es ctx he
      match es with
      | [] => rfl
      | e :: rest =>
        have hsz : sizeOf e < m ∧ sizeOf rest < m := by
          have hs : sizeOf (e :: rest) = 1 + sizeOf e + sizeOf rest := by simp
          have h1 := list_sizeOf_pos rest
          constructor <;> omega
        rcases h1 : evaluate ctx e with ⟨r, c2, evs⟩
        have hv1 : c2.vars = ctx.vars := by
          have hx := ih.1 e ctx hsz.1
          rw [h1] at hx
          exact hx
        cases r with
        | ok v =>
          rcases h2 : evalList c2 rest with ⟨r2, c3, evs2⟩
          have hv2 : c3.vars = c2.vars := by
            have hx := ih.2 rest c2 hsz.2
            rw [h2] at hx
            exact hx
          cases r2 <;> simp [evalList, h1, h2] <;> rw [hv2, hv1]
        | error err =>
          simp [evalList, h1]
          exact hv1

/-- Helper for C5: expression evaluation never changes the variable
environment. -/
theorem evaluate_vars (e : Expression) (ctx : Ctx) :
    ((evaluate ctx e).2.1).vars = ctx.vars :=
  (evaluate_vars_aux (sizeOf e + 1)).1 e ctx (Nat.lt_succ_self _)

/-- Helper for C5: statement-position argument evaluation never changes the
variable environment. -/
theorem evalListAll_vars (es : List Expression) (ctx : Ctx) :
    ((evalListAll ctx es).2.1).vars = ctx.vars := by
  induction es generalizing ctx with
  | nil => rfl
  | cons e rest ih =>
    rcases h1 : evaluate ctx e with ⟨r, c2, evs⟩
    have hv1 : c2.vars = ctx.vars := by
      have hx := evaluate_vars e ctx
      rw [h1] at hx
      exact hx
    rcases h2 : evalListAll c2 rest with ⟨rs, c3, evs2⟩
    have hv2 : c3.vars = c2.vars := by
      have hx := ih c2
      rw [h2] at hx
      exact hx
    simp [evalListAll, h1, h2]
    rw [hv2, hv1]

/-- Helper for C5: if the statement runner only stacks new bindings onto the
environment, so does a statement sequence. -/
theorem seqStmts_vars_ext (g : Ctx → Statement → EvalRes Unit)
    (hg : ∀ c s, ∃ p, ((g c s).2.1).vars = p ++ c.vars) :
    ∀ (l : List Statement) (ctx : Ctx),
      ∃ p, ((seqStmts g ctx l).2.1).vars = p ++ ctx.vars := by
  intro l
  induction l with
  | nil => exact fun ctx => ⟨[], rfl⟩
  | cons s rest ih =>
    intro ctx
    rcases hgc : g ctx s with ⟨r, c2, evs⟩
    obtain ⟨p1, hp1⟩ := hg ctx s
    rw [hgc] at hp1
    cases r with
    | ok u =>
      rcases hsr : seqStmts g c2 rest with ⟨r2, c3, evs2⟩
      obtain ⟨p2, hp2⟩ := ih c2
      rw [hsr] at hp2
      refine ⟨p2 ++ p1, ?_⟩
      simp [seqStmts, hgc, hsr]
      rw [hp2, hp1]
    | error e =>
      refine ⟨p1, ?_⟩
      simp [seqStmts, hgc]
      exact hp1

/-- Helper for C5: if the body runner only stacks new bindings onto the
environment, the loop — which additionally stacks the loop-variable binding
before each iteration — does too. -/
theorem loopIter_vars_ext (runBody : Ctx → EvalRes Unit)
    (h : ∀ c, ∃ p, ((runBody c).2.1).vars = p ++ c.vars) (varname : List Nat) :
    ∀ (lits : List Literal) (ctx : Ctx),
      ∃ p, ((loopIter runBody varname ctx lits).2.1).vars = p ++ ctx.vars := by
  intro lits
  induction lits with
  | nil => exact fun ctx => ⟨[], rfl⟩
  | cons lit rest ih =>
    intro ctx
    rcases hb : runBody { ctx with vars := envInsert varname lit ctx.vars } with ⟨r, c2, evs⟩
    obtain ⟨p1, hp1⟩ := h { ctx with vars := envInsert varname lit ctx.vars }
    rw [hb] at hp1
    simp only [envInsert] at hp1
    cases r with
    | ok u =>
      rcases hl : loopIter runBody varname c2 rest with ⟨r2, c3, evs2⟩
      obtain ⟨p2, hp2⟩ := ih c2
      rw [hl] at hp2
      refine ⟨p2 ++ (p1 ++ [(varname, lit)]), ?_⟩
      simp [loopIter, hb, hl]
      rw [hp2, hp1]
    | error e =>
      refine ⟨p1 ++ [(varname, lit)], ?_⟩
      simp [loopIter, hb]
      rw [hp1]

/-- Helper for C5: executing any statement only stacks new bindings onto the
shared flat environment — nothing is ever unbound. -/
theorem execStmtF_vars_ext :
    ∀ (fuel : Nat) (s : Statement) (ctx : Ctx),
      ∃ p, ((execStmtF fuel ctx s).2.1).vars = p ++ ctx.vars := by
  intro fuel
  induction fuel with
  | zero => exact fun s ctx => ⟨[], rfl⟩
  | succ f ih =>
    intro s ctx
    match s with
    | .Comment => exact ⟨[], rfl⟩
    | .EmptyLine => exact ⟨[], rfl⟩
    | .Assign name e =>
      rcases hv : evaluate ctx e with ⟨r, c2, evs⟩
      have h2 : c2.vars = ctx.vars := by
        have hx := evaluate_vars e ctx
        rw [hv] at hx
        exact hx
      cases r with
      | ok lit =>
        refine ⟨[(name, lit)], ?_⟩
        simp [execStmtF, hv, envInsert]
        exact h2
      | error err =>
        refine ⟨[], ?_⟩
        simp [execStmtF, hv]
        exact h2
    | .RemoteSingle line =>
      rcases he : ensureConnected ctx with ⟨r, c2, evs⟩
      have h2 : c2.vars = ctx.vars := by
        have hx := ensureConnected_vars ctx
        rw [he] at hx
        exact hx
      cases r with
      | ok u =>
        cases ht : resolveTemplate c2.vars line with
        | ok text => exact ⟨[], by simp [execStmtF, he, ht]; exact h2⟩
        | error e2 => exact ⟨[], by simp [execStmtF, he, ht]; exact h2⟩
      | error e2 => exact ⟨[], by simp [execStmtF, he]; exact h2⟩
    | .Remote lines =>
      rcases he : ensureConnected ctx with ⟨r, c2, evs⟩
      have h2 : c2.vars = ctx.vars := by
        have hx := ensureConnected_vars ctx
        rw [he] at hx
        exact hx
      cases r with
      | ok u =>
        cases ht : resolveTemplate c2.vars (joinLines lines) with
        | ok text => exact ⟨[], by simp [execStmtF, he, ht]; exact h2⟩
        | error e2 => exact ⟨[], by simp [execStmtF, he, ht]; exact h2⟩
      | error e2 => exact ⟨[], by simp [execStmtF, he]; exact h2⟩
    | .FnCall name args =>
      rcases ha : evalListAll ctx args with ⟨rs, c2, evs⟩
      have h2 : c2.vars = ctx.vars := by
        have hx := evalListAll_vars args ctx
        rw [ha] at hx
        exact hx
      cases htr : transposeResults rs with
      | ok vals =>
        rcases hcb : callBuiltinFunction c2 name vals with ⟨r2, c3, evs2⟩
        have h3 : c3.vars = c2.vars := by
          have hx := callBuiltinFunction_vars c2 name vals
          rw [hcb] at hx
          exact hx
        cases r2 <;> exact ⟨[], by simp [execStmtF, ha, htr, hcb]; rw [h3, h2]⟩
      | error e2 => exact ⟨[], by simp [execStmtF, ha, htr]; exact h2⟩
    | .ForLoop varname e body =>
      rcases hv : evaluate ctx e with ⟨r, c2, evs⟩
      have h2 : c2.vars = ctx.vars := by
        have hx := evaluate_vars e ctx
        rw [hv] at hx
        exact hx
      cases r with
      | ok lit =>
        cases lit with
        | Array lits =>
          have hbody : ∀ c, ∃ p,
              ((seqStmts (execStmtF f) c body).2.1).vars = p ++ c.vars :=
            fun c => seqStmts_vars_ext (execStmtF f) (fun c2 s2 => ih s2 c2) body c
          rcases hli : loopIter (fun c => seqStmts (execStmtF f) c body)
              varname c2 lits with ⟨r2, c3, evs2⟩
          obtain ⟨p, hp⟩ := loopIter_vars_ext _ hbody varname lits c2
          rw [hli] at hp
          refine ⟨p, ?_⟩
          simp [execStmtF, hv, hli]
          rw [hp, h2]
        | HereDoc s2 => exact ⟨[], by simp [execStmtF, hv]; exact h2⟩
        | String s2 => exact ⟨[], by simp [execStmtF, hv]; exact h2⟩
        | Integer i => exact ⟨[], by simp [execStmtF, hv]; exact h2⟩
        | Bool b => exact ⟨[], by simp [execStmtF, hv]; exact h2⟩
        | Void => exact ⟨[], by simp [execStmtF, hv]; exact h2⟩
      | error err => exact ⟨[], by simp [execStmtF, hv]; exact h2⟩

/-- Helper for C5: the executable loop iteration coincides with the
declarative once-per-element big-step relation `LoopRun` on successful
runs. -/
theorem loopIter_eq_iff_LoopRun (runBody : Ctx → EvalRes Unit)
    (varname : List Nat) :
    ∀ (lits : List Literal) (ctx ctxF : Ctx) (evs : List ConsoleEvent),
      loopIter runBody varname ctx lits = (.ok (), ctxF, evs) ↔
        LoopRun runBody varname ctx lits ctxF evs := by
  intro lits
  induction lits with
  | nil =>
    intro ctx ctxF evs
    constructor
    · intro h
      have h2 : ((.ok (), ctx, []) : EvalRes Unit) = (.ok (), ctxF, evs) := h
      injection h2 with ha hrest
      injection hrest with hb hc
      subst hb
      subst hc
      exact LoopRun.nil ctx
    · intro h
      cases h
      rfl
  | cons lit rest ih =>
    intro ctx ctxF evs
    constructor
    · intro h
      rcases hb : runBody { ctx with vars := envInsert varname lit ctx.vars }
        with ⟨r, c2, evs1⟩
      simp only [loopIter, hb] at h
      cases r with
      | error e => simp at h
      | ok u =>
        cases u
        dsimp only at h
        rcases hl : loopIter runBody varname c2 rest with ⟨r2, c3, evs2⟩
        rw [hl] at h
        dsimp only at h
        injection h with ha hrest
        injection hrest with hcf hev
        subst ha
        subst hcf
        subst hev
        exact LoopRun.cons ctx lit rest c2 evs1 c3 evs2 hb ((ih c2 c3 evs2).mp hl)
    · intro h
      cases h with
      | cons _ _ _ c2 evs1 _ evs2 hb hrun =>
        have hrec := (ih c2 ctxF evs2).mpr hrun
        simp [loopIter, hb, hrec]

/-- Helper for C5: after a loop over a nonempty array whose body only stacks
new bindings, the loop variable is still bound — the binding outlives the
loop, whether the loop succeeded or aborted. -/
theorem loopVar_bound_after (runBody : Ctx → EvalRes Unit) (varname : List Nat)
    (ctx : Ctx) (lit : Literal) (rest : List Literal)
    (h : ∀ c, ∃ p, ((runBody c).2.1).vars = p ++ c.vars) :
    ∃ w, envLookup varname
      ((loopIter runBody varname ctx (lit :: rest)).2.1).vars = some w := by
  rcases hb : runBody { ctx with vars := envInsert varname lit ctx.vars }
    with ⟨r, c2, evs1⟩
  obtain ⟨p1, hp1⟩ := h { ctx with vars := envInsert varname lit ctx.vars }
  rw [hb] at hp1
  have hbound1 : ∃ w, envLookup varname c2.vars = some w := by
    rw [hp1]
    exact envLookup_append_bound p1 _ varname lit (envLookup_envInsert_self varname lit ctx.vars)
  cases r with
  | error e =>
    simp only [loopIter, hb]
    exact hbound1
  | ok u =>
    obtain ⟨w1, hw1⟩ := hbound1
    rcases hl : loopIter runBody varname c2 rest with ⟨r2, c3, evs2⟩
    obtain ⟨p2, hp2⟩ := loopIter_vars_ext runBody h varname rest c2
    rw [hl] at hp2
    simp only [loopIter, hb, hl]
    rw [hp2]
    exact envLookup_append_bound p2 _ varname w1 hw1

/-- C5: general loop semantics and the concrete instance. For every loop
over an array: a successful `loopIter` run is exactly a `LoopRun` — the body
runs once per element, in array order, each time from the then-current
context with the loop variable bound to that element in the shared flat
environment, events accumulating in order; binding the loop variable
overwrites any same-named binding while leaving every other name untouched;
executing any statement (so any loop body) only stacks new bindings onto the
environment, hence after a loop over a nonempty array the loop variable is
still bound — the last binding remains visible after the loop. In
particular, running `let users = ["alice", "bob"]` followed by a loop whose
body is one remote statement templated on the loop variable connects once
and invokes the remote run operation exactly twice, with the expanded texts
`echo alice` then `echo bob`, in that order, and afterwards the loop
variable is still bound, to the last element `bob`. -/
theorem c5_loop_order_and_binding :
    (∀ (runBody : Ctx → EvalRes Unit) (varname : List Nat) (ctx ctxF : Ctx)
        (lits : List Literal) (evs : List ConsoleEvent),
      loopIter runBody varname ctx lits = (.ok (), ctxF, evs) ↔
        LoopRun runBody varname ctx lits ctxF evs) ∧
    (∀ (varname : List Nat) (lit : Literal) (vs : List (List Nat × Literal)),
      envLookup varname (envInsert varname lit vs) = some lit) ∧
    (∀ (name varname : List Nat) (lit : Literal) (vs : List (List Nat × Literal)),
      name ≠ varname →
        envLookup name (envInsert varname lit vs) = envLookup name vs) ∧
    (∀ (fuel : Nat) (body : List Statement) (c : Ctx),
      ∃ p, ((seqStmts (execStmtF fuel) c body).2.1).vars = p ++ c.vars) ∧
    (∀ (runBody : Ctx → EvalRes Unit) (varname : List Nat) (ctx : Ctx)
        (lit : Literal) (rest : List Literal),
      (∀ c, ∃ p, ((runBody c).2.1).vars = p ++ c.vars) →
      ∃ w, envLookup varname
        ((loopIter runBody varname ctx (lit :: rest)).2.1).vars = some w) ∧
    ((runScript false
      (strBytes "let users = [\"alice\", \"bob\"]\nfor user in $users \x7b\n|echo \x7b\x7b user \x7d\x7d\n\x7d\n")
      demoCtx).1 = .ok () ∧
    (runScript false
      (strBytes "let users = [\"alice\", \"bob\"]\nfor user in $users \x7b\n|echo \x7b\x7b user \x7d\x7d\n\x7d\n")
      demoCtx).2.1.remoteOps =
      [.connect (strBytes "user@host"), .run (strBytes "echo alice"),
        .run (strBytes "echo bob")] ∧
    envLookup (strBytes "user")
      (runScript false
        (strBytes "let users = [\"alice\", \"bob\"]\nfor user in $users \x7b\n|echo \x7b\x7b user \x7d\x7d\n\x7d\n")
        demoCtx).2.1.vars = some (.String (strBytes "bob"))) :=
  ⟨fun runBody varname ctx ctxF lits evs =>
      loopIter_eq_iff_LoopRun runBody varname lits ctx ctxF evs,
    envLookup_envInsert_self,
    envLookup_envInsert_ne,
    fun fuel body c =>
      seqStmts_vars_ext (execStmtF fuel)
        (fun c2 s2 => execStmtF_vars_ext fuel s2 c2) body c,
    fun runBody varname ctx lit rest h =>
      loopVar_bound_after runBody varname ctx lit rest h,
    rfl, rfl, rfl⟩

/-- C5 witness: for the concrete body `|echo hi` run by the real statement
interpreter over the two-element array, the loop variable is bound after the
loop, and the executable run is a `LoopRun` — one body execution per
element, in order. -/
theorem c5_loop_order_and_binding_witness :
    (∃ w, envLookup (strBytes "user")
      ((loopIter
          (fun c => seqStmts (execStmtF 3) c [Statement.RemoteSingle (strBytes "echo hi")])
          (strBytes "user") demoCtx
          [Literal.String (strBytes "alice"), Literal.String (strBytes "bob")]).2.1).vars =
        some w) ∧
    LoopRun
      (fun c => seqStmts (execStmtF 3) c [Statement.RemoteSingle (strBytes "echo hi")])
      (strBytes "user") demoCtx
      [Literal.String (strBytes "alice"), Literal.String (strBytes "bob")]
      ((loopIter
          (fun c => seqStmts (execStmtF 3) c [Statement.RemoteSingle (strBytes "echo hi")])
          (strBytes "user") demoCtx
          [Literal.String (strBytes "alice"), Literal.String (strBytes "bob")]).2.1)
      ((loopIter
          (fun c => seqStmts (execStmtF 3) c [Statement.RemoteSingle (strBytes "echo hi")])
          (strBytes "user") demoCtx
          [Literal.String (strBytes "alice"), Literal.String (strBytes "bob")]).2.2) :=
  ⟨c5_loop_order_and_binding.2.2.2.2.1
      (fun c => seqStmts (execStmtF 3) c [Statement.RemoteSingle (strBytes "echo hi")])
      (strBytes "user") demoCtx (Literal.String (strBytes "alice"))
      [Literal.String (strBytes "bob")]
      (fun c =>
        c5_loop_order_and_binding.2.2.2.1 3
          [Statement.RemoteSingle (strBytes "echo hi")] c),
    (c5_loop_order_and_binding.1
        (fun c => seqStmts (execStmtF 3) c [Statement.RemoteSingle (strBytes "echo hi")])
        (strBytes "user") demoCtx _
        [Literal.String (strBytes "alice"), Literal.String (strBytes "bob")] _).mp
      rfl⟩

/-- C7: `upload` with exactly two arguments whose first is neither a string
nor a heredoc fails with the wrong-argument-kind error and returns the
context unchanged — in particular no upload operation is recorded, so the
Remote Execution Layer is never invoked. -/
theorem c7_upload_wrong_first_kind (ctx : Ctx) (a b : Literal)
    (h1 : ∀ s, a ≠ .String s) (h2 : ∀ s, a ≠ .HereDoc s) :
    executeUpload ctx [a, b] =
      (.error (.badArgType "first argument of upload must be a string or a heredoc"),
        ctx, []) := by
  cases a with
  | String s => exact absurd rfl (h1 s)
  | HereDoc s => exact absurd rfl (h2 s)
  | Integer i => rfl
  | Bool v => rfl
  | Array l => rfl
  | Void => rfl

/-- C7 witness: `upload(5, "/tmp/x")` fails with the wrong-kind error and
records no remote operation. -/
theorem c7_upload_wrong_first_kind_witness :
    executeUpload demoCtx [.Integer 5, .String (strBytes "/tmp/x")] =
      (.error (.badArgType "first argument of upload must be a string or a heredoc"),
        demoCtx, []) :=
  c7_upload_wrong_first_kind demoCtx (.Integer 5) (.String (strBytes "/tmp/x"))
    (fun _ h => Literal.noConfusion h) (fun _ h => Literal.noConfusion h)

/-- C8: evaluating `Variable(name)` returns exactly the stored value — no
template expansion, no context change, no console output — when `name` is
bound, and fails with the undefined-variable error when it is not. -/
theorem c8_variable_resolution (ctx : Ctx) (name : List Nat) :
    (∀ v, envLookup name ctx.vars = some v →
      evaluate ctx (.Variable name) = (.ok v, ctx, [])) ∧
    (envLookup name ctx.vars = none →
      evaluate ctx (.Variable name) = (.error (.undefinedVar name), ctx, [])) := by
  constructor
  · intro v h; simp [evaluate, h]
  · intro h; simp [evaluate, h]

/-- C8 witness: a bound variable evaluates to its stored value unchanged; an
unbound one fails with the undefined-variable error. -/
theorem c8_variable_resolution_witness :
    evaluate { demoCtx with vars := [(strBytes "x", .Integer 5)] }
      (.Variable (strBytes "x")) =
      (.ok (.Integer 5), { demoCtx with vars := [(strBytes "x", .Integer 5)] }, []) ∧
    evaluate demoCtx (.Variable (strBytes "missing")) =
      (.error (.undefinedVar (strBytes "missing")), demoCtx, []) :=
  ⟨(c8_variable_resolution _ _).1 _ rfl, (c8_variable_resolution _ _).2 rfl⟩

/-- C10: a one-argument `exec` whose spawned shell command exits non-zero
fails with `BadArgument "Command execution failed"` — the same error
constructor used for argument-validation failures in `execute_upload`, not a
distinct local-process-failure kind — while a zero exit yields success. -/
theorem c10_exec_exit_status (ctx : Ctx) (arg : Literal) (code : Nat)
    (h : ctx.localShell (literalDisplay arg) = some code) :
    (code ≠ 0 → executeExec ctx [arg] =
      (.error (.badArgument "Command execution failed"), ctx, [])) ∧
    (code = 0 → executeExec ctx [arg] = (.ok (), ctx, [])) := by
  constructor <;> intro hc <;> simp [executeExec, h, hc]

/-- C10 witness: under the demo shell, `exec("false")` fails with the fixed
bad-argument message and `exec("true")` succeeds. -/
theorem c10_exec_exit_status_witness :
    executeExec demoCtx [.String (strBytes "false")] =
      (.error (.badArgument "Command execution failed"), demoCtx, []) ∧
    executeExec demoCtx [.String (strBytes "true")] = (.ok (), demoCtx, []) :=
  ⟨(c10_exec_exit_status demoCtx (.String (strBytes "false")) 1 rfl).1 (by decide),
    (c10_exec_exit_status demoCtx (.String (strBytes "true")) 0 rfl).2 rfl⟩

/-- Helper for C9: expanding a byte list that contains no adjacent pair of
opening braces returns it unchanged, for any fuel above its length. -/
theorem resolveTemplateAux_no_placeholder (vars : List (List Nat × Literal)) :
    ∀ fuel s, s.length < fuel → hasDoubleOpen s = false →
      resolveTemplateAux vars fuel s = .ok s := by
  intro fuel
  induction fuel with
  | zero => intro s h _; exact absurd h (Nat.not_lt_zero _)
  | succ n ih =>
    intro s hlen hd
    match s with
    | [] => rfl
    | c :: rest =>
      simp only [hasDoubleOpen, Bool.or_eq_false_iff, Bool.and_eq_false_iff,
        decide_eq_false_iff_not] at hd
      have hdrest : hasDoubleOpen rest = false := hd.2
      have hlen2 : rest.length < n := by
        simpa using Nat.lt_of_succ_lt_succ hlen
      by_cases hc : c = 123
      · subst hc
        have hhead : rest.head? ≠ some 123 := by
          rcases hd.1 with h | h
          · exact absurd rfl h
          · exact h
        cases rest with
        | nil =>
          have h0 := ih [] (by omega) rfl
          simp [resolveTemplateAux, h0]
        | cons b t =>
          have hb : b ≠ 123 := by
            intro hb; exact hhead (by simp [hb])
          have hrec := ih (b :: t) (by omega) hdrest
          simp only [resolveTemplateAux, if_pos rfl]
          split
          · split
            · rename_i rest2 heq2
              have hb123 : b = 123 := by
                have hh := congrArg List.head? heq2
                simpa using hh
              exact absurd hb123 hb
            all_goals rw [hrec]
          all_goals rw [hrec]
      · have hrec := ih rest (by omega) hdrest
        simp [resolveTemplateAux, hc, hrec]

/-- C9: template expansion is the identity on placeholder-free text: if the
source contains no two adjacent opening braces (so no placeholder opener at
all), expansion succeeds and returns the text unchanged, for every
environment. -/
theorem c9_template_identity_on_constants (vars : List (List Nat × Literal))
    (text : List Nat) (h : hasDoubleOpen text = false) :
    resolveTemplate vars text = .ok text :=
  resolveTemplateAux_no_placeholder vars (text.length + 1) text
    (Nat.lt_succ_self _) h

/-- C9 witness: a concrete placeholder-free text (single braces included)
expands to itself. -/
theorem c9_template_identity_on_constants_witness :
    hasDoubleOpen (strBytes "echo \x7b a \x7d done") = false ∧
    resolveTemplate [(strBytes "a", .Integer 1)] (strBytes "echo \x7b a \x7d done") =
      .ok (strBytes "echo \x7b a \x7d done") :=
  ⟨by decide, c9_template_identity_on_constants _ _ (by decide)⟩

/-- Helper for C6: one (possibly skipped) read step on a stream without
transport errors succeeds, preserves error-freedom, and consumes exactly one
event unless it reports the stream done. -/
theorem readStep_cases (d : Bool) (evts : List ReadEvt) (buf : List Nat)
    (h : noFailEvt evts = true) :
    ∃ lines rest buf2 done,
      (if d then Except.ok ([], evts, buf, true) else streamStep evts buf) =
        .ok (lines, rest, buf2, done) ∧
      noFailEvt rest = true ∧
      ((done = true ∧ rest.length = evts.length) ∨
        (done = false ∧ rest.length + 1 = evts.length)) := by
  cases d with
  | true => exact ⟨[], evts, buf, true, by simp, h, Or.inl ⟨rfl, rfl⟩⟩
  | false =>
    cases evts with
    | nil => exact ⟨[], [], buf, true, by simp [streamStep], rfl, Or.inl ⟨rfl, rfl⟩⟩
    | cons ev rest =>
      cases ev with
      | chunk bytes =>
        rcases hsp : splitCompleteLinesGo [] (buf ++ bytes) with ⟨ls, rem⟩
        exact ⟨ls, rest, rem, false, by simp [streamStep, hsp],
          by simpa [noFailEvt] using h, Or.inr ⟨rfl, rfl⟩⟩
      | wouldBlock =>
        exact ⟨[], rest, buf, false, by simp [streamStep],
          by simpa [noFailEvt] using h, Or.inr ⟨rfl, rfl⟩⟩
      | fail m => exact absurd h (by simp [noFailEvt])

/-- Helper for C6: with enough fuel and no transport error on either stream,
the poll loop terminates successfully. -/
theorem runImplLoop_ok :
    ∀ (fuel : Nat) (e1 e2 : List ReadEvt) (b1 b2 : List Nat) (d1 d2 : Bool),
      noFailEvt e1 = true → noFailEvt e2 = true →
      e1.length + e2.length + 2 ≤ fuel →
      ∃ r, runImplLoop fuel e1 e2 b1 b2 d1 d2 = .ok r := by
  intro fuel
  induction fuel with
  | zero => intro e1 e2 b1 b2 d1 d2 _ _ hf; omega
  | succ n ih =>
    intro e1 e2 b1 b2 d1 d2 h1 h2 hf
    obtain ⟨l1, r1, nb1, d1p, hs1, hnf1, hlen1⟩ := readStep_cases d1 e1 b1 h1
    obtain ⟨l2, r2, nb2, d2p, hs2, hnf2, hlen2⟩ := readStep_cases d2 e2 b2 h2
    simp only [runImplLoop]
    rw [hs1, hs2]
    cases hdd : d1p && d2p with
    | true =>
      exact ⟨(l1.map OutLine.out ++ l2.map OutLine.errOut, nb1, nb2), by simp [hdd]⟩
    | false =>
      have hone : d1p = false ∨ d2p = false := by
        cases d1p
        · exact Or.inl rfl
        · cases d2p
          · exact Or.inr rfl
          · exact absurd hdd (by decide)
      have hle1 : r1.length ≤ e1.length := by
        rcases hlen1 with ⟨_, h⟩ | ⟨_, h⟩ <;> omega
      have hle2 : r2.length ≤ e2.length := by
        rcases hlen2 with ⟨_, h⟩ | ⟨_, h⟩ <;> omega
      have hstrict : r1.length + 1 ≤ e1.length ∨ r2.length + 1 ≤ e2.length := by
        rcases hone with ho | ho
        · rcases hlen1 with ⟨hd, h⟩ | ⟨_, h⟩
          · exact absurd (ho ▸ hd) (by decide)
          · exact Or.inl (by omega)
        · rcases hlen2 with ⟨hd, h⟩ | ⟨_, h⟩
          · exact absurd (ho ▸ hd) (by decide)
          · exact Or.inr (by omega)
      have hless : r1.length + r2.length + 2 ≤ n := by
        rcases hstrict with h | h <;> omega
      obtain ⟨r, hr⟩ := ih r1 r2 nb1 nb2 d1p d2p hnf1 hnf2 hless
      obtain ⟨more, bb1, bb2⟩ := r
      exact ⟨((l1.map OutLine.out ++ l2.map OutLine.errOut) ++ more, bb1, bb2),
        by simp [hdd, hr]⟩

/-- C6: the run operation never checks the remote process's exit status.
For every sudo mode, script, staging outcome `Ok`, and pair of output
streams completing without transport error, `run_impl` returns success —
even when the remote exit status is non-zero. -/
theorem c6_run_ignores_exit_status (useSudo : Bool) (script : List Nat)
    (status : Int) (e1 e2 : List ReadEvt) (hs : status ≠ 0)
    (h1 : noFailEvt e1 = true) (h2 : noFailEvt e2 = true) :
    ∃ lines, runImpl useSudo script (.ok ()) status e1 e2 = .ok lines := by
  obtain ⟨r, hr⟩ :=
    runImplLoop_ok (e1.length + e2.length + 2) e1 e2 [] [] false false h1 h2
      (Nat.le_refl _)
  obtain ⟨lines, outBuf, errBuf⟩ := r
  exact ⟨lines ++ (if outBuf.isEmpty then [] else [.out outBuf]) ++
      (if errBuf.isEmpty then [] else [.errOut errBuf]),
    by simp [runImpl, hr]⟩

/-- C6 witness: a concrete run whose remote process exits with status 3 and
whose streams deliver data and end cleanly returns success. -/
theorem c6_run_ignores_exit_status_witness :
    (3 : Int) ≠ 0 ∧
    noFailEvt [.chunk (strBytes "hi\n"), .wouldBlock] = true ∧
    noFailEvt [.chunk (strBytes "oops\n")] = true ∧
    ∃ lines, runImpl false (strBytes "exit 3") (.ok ()) 3
      [.chunk (strBytes "hi\n"), .wouldBlock] [.chunk (strBytes "oops\n")] =
        .ok lines :=
  ⟨by decide, by decide, by decide,
    c6_run_ignores_exit_status false (strBytes "exit 3") 3
      [.chunk (strBytes "hi\n"), .wouldBlock] [.chunk (strBytes "oops\n")]
      (by decide) (by decide) (by decide)⟩

/-- Helper: a list is a `isPrefixOf` of itself followed by anything. -/
theorem isPrefixOf_append_self (l r : List Nat) : l.isPrefixOf (l ++ r) = true := by
  induction l with
  | nil => cases r <;> rfl
  | cons b t ih => simp [List.isPrefixOf, ih]

/-- Helper: whether `needle` is a prefix of `a ++ r` does not depend on `r`
when `needle` fits inside `a`. -/
theorem isPrefixOf_append_of_le (needle a r : List Nat)
    (h : needle.length ≤ a.length) :
    needle.isPrefixOf (a ++ r) = needle.isPrefixOf a := by
  induction needle generalizing a with
  | nil => simp [List.isPrefixOf]
  | cons n nt ih =>
    cases a with
    | nil => simp at h
    | cons b bt =>
      simp only [List.cons_append, List.isPrefixOf, List.append_eq]
      rw [ih bt (by simpa using h)]

/-- Helper for C4: `findSubseq` — the `windows().position()` search of
`parser.rs::until` — computes exactly the index of the first occurrence. -/
theorem findSubseq_of_firstOccur (needle : List Nat) :
    ∀ (hay : List Nat) (k : Nat), occursAtFirst needle hay k →
      findSubseq needle hay = some k := by
  intro hay
  induction hay with
  | nil =>
    intro k h
    have h1 : needle.isPrefixOf [] = true := by
      have hx := h.1
      rwa [List.drop_nil] at hx
    have hk : k = 0 := by
      by_contra hk0
      have h0 := h.2 0 (Nat.pos_of_ne_zero hk0)
      rw [List.drop_nil] at h0
      rw [h1] at h0
      exact absurd h0 (by decide)
    subst hk
    simp [findSubseq, h1]
  | cons b t ih =>
    intro k h
    cases k with
    | zero =>
      have h1 := h.1
      rw [List.drop_zero] at h1
      simp [findSubseq, h1]
    | succ k2 =>
      have h0 := h.2 0 (Nat.succ_pos _)
      rw [List.drop_zero] at h0
      have hrec : findSubseq needle t = some k2 := by
        apply ih
        constructor
        · exact h.1
        · intro j hj
          exact h.2 (j + 1) (Nat.succ_lt_succ hj)
      simp [findSubseq, h0, hrec]

/-- Helper for C4: behavior of `until` at a first occurrence — the returned
text is everything before the needle, and the resume offset is
`start + k + 1 + needle.length`, one byte past the end of the needle. -/
theorem puntil_spec (needle input : List Nat) (start k : Nat)
    (h : occursAtFirst needle (input.drop start) k)
    (hv : utf8Valid ((input.drop start).take k) = true) :
    puntil needle input start =
      .ok ((input.drop start).take k, start + k + 1 + needle.length) := by
  simp [puntil, findSubseq_of_firstOccur needle (input.drop start) k h, hv]

/-- Helper: ASCII byte lists are valid UTF-8. -/
theorem utf8Valid_of_ascii (l : List Nat) (h : ∀ b ∈ l, b < 128) :
    utf8Valid l = true := by
  induction l with
  | nil => rfl
  | cons b t ih =>
    have hb : b < 128 := h b (List.mem_cons_self b t)
    have ht := ih (fun x hx => h x (List.mem_cons_of_mem b hx))
    simp only [utf8Valid] at ht ⊢
    simp [utf8ValidFrom, hb, ht]

/-- Helper: alphabetic bytes are ASCII. -/
theorem alpha_ascii (b : Nat) (h : isAlphaByte b = true) : b < 128 := by
  simp only [isAlphaByte, Bool.or_eq_true, Bool.and_eq_true, decide_eq_true_eq] at h
  rcases h with ⟨_, h2⟩ | ⟨_, h2⟩ <;> omega

/-- Helper for C4: the greedy iteration of `is_a(alpha).repeat(1..)` consumes
exactly the maximal alphabetic run. -/
theorem prepeatIter_alpha (input : List Nat) :
    ∀ (tag rest : List Nat) (start fuel : Nat),
      input.drop start = tag ++ rest →
      (∀ b ∈ tag, isAlphaByte b = true) →
      (∀ c, rest.head? = some c → isAlphaByte c = false) →
      tag.length < fuel →
      prepeatIter (pisA isAlphaByte) none fuel input start =
        (tag, start + tag.length) := by
  intro tag
  induction tag with
  | nil =>
    intro rest start fuel hsplit _ hrest hfuel
    obtain ⟨f, rfl⟩ := Nat.exists_eq_succ_of_ne_zero (Nat.pos_iff_ne_zero.mp hfuel)
    rw [List.nil_append] at hsplit
    cases hr : rest with
    | nil => simp [prepeatIter, pisA, hsplit, hr]
    | cons c r =>
      have hc := hrest c (by rw [hr]; rfl)
      simp [prepeatIter, pisA, hsplit, hr, hc]
  | cons b bt ih =>
    intro rest start fuel hsplit halpha hrest hfuel
    obtain ⟨f, rfl⟩ := Nat.exists_eq_succ_of_ne_zero (Nat.pos_iff_ne_zero.mp (Nat.lt_of_le_of_lt (Nat.zero_le _) hfuel))
    have hb : isAlphaByte b = true := halpha b (List.mem_cons_self b bt)
    have hdrop1 : input.drop (start + 1) = bt ++ rest := by
      rw [← List.drop_drop 1 start input, hsplit]
      rfl
    have hrec := ih rest (start + 1) f hdrop1
      (fun x hx => halpha x (List.mem_cons_of_mem b hx)) hrest
      (by simpa using Nat.lt_of_succ_lt_succ hfuel)
    rw [List.cons_append] at hsplit
    have hres : prepeatIter (pisA isAlphaByte) none (f + 1) input start =
        (b :: (prepeatIter (pisA isAlphaByte) none f input (start + 1)).1,
          (prepeatIter (pisA isAlphaByte) none f input (start + 1)).2) := by
      simp [prepeatIter, pisA, hsplit, hb, Option.map]
    rw [hres, hrec]
    simp [List.length_cons]
    omega

/-- Helper for C4: `is_a(alpha).repeat(1..)` consumes exactly the maximal
nonempty alphabetic run. -/
theorem prepeat_alpha (input tag rest : List Nat) (start : Nat)
    (hsplit : input.drop start = tag ++ rest)
    (htag : tag ≠ [])
    (halpha : ∀ b ∈ tag, isAlphaByte b = true)
    (hrest : ∀ c, rest.head? = some c → isAlphaByte c = false) :
    prepeat 1 none (pisA isAlphaByte) input start = .ok (tag, start + tag.length) := by
  have hlentot := congrArg List.length hsplit
  rw [List.length_drop, List.length_append] at hlentot
  have hlen : tag.length < input.length + 1 := by omega
  have hiter := prepeatIter_alpha input tag rest start (input.length + 1) hsplit
    halpha hrest hlen
  have h1 : ¬ tag.length < 1 := by
    cases tag with
    | nil => exact absurd rfl htag
    | cons _ _ => simp
  simp [prepeat, hiter, h1]

/-- Helper for C4: the tag sub-parser of `heredoc_expression` — the
alphabetic run, collected and converted through `from_utf8`. -/
theorem heredocTag_spec (input tag rest : List Nat) (start : Nat)
    (hsplit : input.drop start = tag ++ rest)
    (htag : tag ≠ [])
    (halpha : ∀ b ∈ tag, isAlphaByte b = true)
    (hrest : ∀ c, rest.head? = some c → isAlphaByte c = false) :
    pconvert (pcollect (prepeat 1 none (pisA isAlphaByte)))
      (fun bytes => if utf8Valid bytes then some bytes else none) input start =
      .ok (tag, start + tag.length) := by
  have hrep := prepeat_alpha input tag rest start hsplit htag halpha hrest
  have hval : utf8Valid tag = true :=
    utf8Valid_of_ascii tag (fun b hb => alpha_ascii b (halpha b hb))
  have hslice : (input.drop start).take tag.length = tag := by
    rw [hsplit]
    exact List.take_left tag rest
  simp [pconvert, pcollect, hrep, Nat.add_sub_cancel_left, hslice, hval]

/-- Helper for C4: `seq(tag)` at a matching position. -/
theorem pseq_at (tag input rest : List Nat) (start : Nat)
    (hsplit : input.drop start = tag ++ rest) :
    pseq tag input start = .ok (tag, start + tag.length) := by
  simp [pseq, hsplit, isPrefixOf_append_self]

/-- Helper for C4: if the close tag does not occur anywhere strictly inside
`content ++ needle` before the boundary, then its first occurrence in the
remaining input is exactly at `content.length`. -/
theorem occursAtFirst_boundary (content needle rest : List Nat)
    (hfirst : ∀ j, j < content.length →
      needle.isPrefixOf ((content ++ needle).drop j) = false) :
    occursAtFirst needle (content ++ (needle ++ rest)) content.length := by
  constructor
  · rw [List.drop_left]
    exact isPrefixOf_append_self needle rest
  · intro j hj
    rw [← List.append_assoc, List.drop_append_eq_append_drop,
      show j - (content ++ needle).length = 0 by rw [List.length_append]; omega,
      List.drop_zero]
    rw [isPrefixOf_append_of_le needle _ rest
      (by rw [List.length_drop, List.length_append]; omega)]
    exact hfirst j hj

/-- C4 amended: for a well-formed heredoc — a nonempty alphabetic tag, a
content whose first byte is not alphabetic (so the greedy tag scan stops),
no occurrence of the closing `TAG` + `>>>` before the real terminator, and
valid UTF-8 content — the parsed content is exactly the text between the
opening tag and the first occurrence of the terminator, and the parser
resumes one byte PAST the first byte following the closing terminator: at
offset `start + 3 + |tag| + |content| + (|tag| + 3)` plus one — the `until`
combinator consumes one extra byte after the matched terminator. -/
theorem c4_heredoc_content_and_resume (input tag content rest : List Nat)
    (start c : Nat)
    (hsplit : input.drop start =
      strBytes "<<<" ++ (tag ++ (content ++ ((tag ++ strBytes ">>>") ++ rest))))
    (htag : tag ≠ [])
    (halpha : ∀ b ∈ tag, isAlphaByte b = true)
    (hhead : content.head? = some c)
    (hca : isAlphaByte c = false)
    (hfirst : ∀ j, j < content.length →
      (tag ++ strBytes ">>>").isPrefixOf
        ((content ++ (tag ++ strBytes ">>>")).drop j) = false)
    (hvalid : utf8Valid content = true) :
    heredocExpressionP input start =
      .ok (.HereDoc content,
        (start + 3 + tag.length + content.length + (tag.length + 3)) + 1) := by
  have h3 : pseq (strBytes "<<<") input start = .ok (strBytes "<<<", start + 3) := by
    have := pseq_at (strBytes "<<<") input
      (tag ++ (content ++ ((tag ++ strBytes ">>>") ++ rest))) start hsplit
    simpa using this
  have hdrop3 : input.drop (start + 3) =
      tag ++ (content ++ ((tag ++ strBytes ">>>") ++ rest)) := by
    rw [← List.drop_drop 3 start input, hsplit,
      show (3 : Nat) = (strBytes "<<<").length from rfl, List.drop_left]
  have hheadfull : ∀ cc,
      (content ++ ((tag ++ strBytes ">>>") ++ rest)).head? = some cc →
      isAlphaByte cc = false := by
    intro cc hcc
    cases content with
    | nil => simp at hhead
    | cons c0 ct =>
      have hc0 : c0 = c := by simpa using hhead
      have hcc0 : cc = c0 := by simpa using hcc.symm
      rw [hcc0, hc0]
      exact hca
  have htagp := heredocTag_spec input tag
    (content ++ ((tag ++ strBytes ">>>") ++ rest)) (start + 3) hdrop3 htag halpha
    hheadfull
  have hdropT : input.drop (start + 3 + tag.length) =
      content ++ ((tag ++ strBytes ">>>") ++ rest) := by
    rw [← List.drop_drop tag.length (start + 3) input, hdrop3, List.drop_left]
  have hoccur : occursAtFirst (tag ++ strBytes ">>>")
      (input.drop (start + 3 + tag.length)) content.length := by
    rw [hdropT]
    exact occursAtFirst_boundary content (tag ++ strBytes ">>>") rest hfirst
  have htake : (input.drop (start + 3 + tag.length)).take content.length = content := by
    rw [hdropT]
    exact List.take_left content _
  have huntil := puntil_spec (tag ++ strBytes ">>>") input
    (start + 3 + tag.length) content.length hoccur (by rw [htake]; exact hvalid)
  rw [htake] at huntil
  have hlenfix : start + 3 + tag.length + content.length + 1 +
      (tag ++ strBytes ">>>").length =
      (start + 3 + tag.length + content.length + (tag.length + 3)) + 1 := by
    rw [List.length_append, show (strBytes ">>>").length = 3 from rfl]
    omega
  rw [hlenfix] at huntil
  simp only [heredocExpressionP, pmap, pbind, pright, ppair]
  rw [h3]
  dsimp only
  rw [htagp]
  dsimp only
  rw [huntil]

/-- C4 counterexample: for the heredoc `<<<A hi A>>>` followed by `XY`, the
content is `\x20hi\x20` (as the claim says) but the parser resumes at offset
13 — the byte `Y` — not at offset 12, the first byte (`X`) following the
closing `A>>>`: the claim's resume position is off by one. -/
theorem c4_heredoc_counterexample :
    heredocExpressionP (strBytes "<<<A hi A>>>XY") 0 =
      .ok (.HereDoc (strBytes " hi "), 13) ∧
    (strBytes "<<<A hi A>>>").length = 12 ∧ (13 : Nat) ≠ 12 :=
  ⟨rfl, rfl, by decide⟩

/-- C4 amended, witness: the heredoc `<<<AB xy AB>>>` followed by `Z!`
parses to content `\x20xy\x20` with resume offset 15 (the byte `!`), one
past the byte `Z` that follows the closing terminator. -/
theorem c4_heredoc_content_and_resume_witness :
    heredocExpressionP (strBytes "<<<AB xy AB>>>Z!") 0 =
      .ok (.HereDoc (strBytes " xy "), (0 + 3 + 2 + 4 + (2 + 3)) + 1) :=
  c4_heredoc_content_and_resume (strBytes "<<<AB xy AB>>>Z!") (strBytes "AB")
    (strBytes " xy ") (strBytes "Z!") 0 32 (by decide) (by decide) (by decide)
    (by decide) (by decide) (by decide) (by decide)

